import Mathlib

/-!
Verification of the WTT_WhatsApp results bot (src/main.py).

The Python source is shallowly embedded over `List Char`.  Strings are ASCII
in all payloads handled by the program, so the Python character classes
(regex whitespace, word characters, digits, str.strip, str.lower/upper) are
modelled on ASCII code points.  Python regular expressions used by the
source are deterministic after the usual greedy-with-backtracking analysis;
each one is embedded as an explicit matcher whose backtracking (where any
exists) is spelled out, with the original regex quoted in a comment.
-/

set_option maxHeartbeats 1000000

namespace WTT

/-- Characters of the Python regex whitespace class and of str.strip,
restricted to ASCII: space, tab, newline, carriage return, vertical tab,
form feed. -/
def isSpaceChar (c : Char) : Bool :=
  c.toNat = 32 || c.toNat = 9 || c.toNat = 10 || c.toNat = 13 || c.toNat = 11 || c.toNat = 12

/-- ASCII decimal digit, as matched by the regex class for digits and by
Python str.isdigit on ASCII input. -/
def isDigitChar (c : Char) : Bool :=
  48 ≤ c.toNat && c.toNat ≤ 57

/-- ASCII word character, as used by the regex word-boundary assertion:
letters, digits, underscore. -/
def isWordChar (c : Char) : Bool :=
  isDigitChar c || (97 ≤ c.toNat && c.toNat ≤ 122) || (65 ≤ c.toNat && c.toNat ≤ 90) || c.toNat = 95

/-- Python str.lower on an ASCII character. -/
def toLowerChar (c : Char) : Char :=
  if 65 ≤ c.toNat && c.toNat ≤ 90 then Char.ofNat (c.toNat + 32) else c

/-- Python str.upper on an ASCII character. -/
def toUpperChar (c : Char) : Char :=
  if 97 ≤ c.toNat && c.toNat ≤ 122 then Char.ofNat (c.toNat - 32) else c

/-- Python str.strip: remove whitespace from both ends. -/
def pyStrip (l : List Char) : List Char :=
  ((l.dropWhile isSpaceChar).reverse.dropWhile isSpaceChar).reverse

/-- Python str.split on a single comma: splits at every comma, keeping empty
segments (the behaviour of split with an explicit separator). -/
def splitComma (l : List Char) : List (List Char) :=
  l.foldr
    (fun c acc =>
      if c = ',' then [] :: acc
      else
        match acc with
        | t :: ts => (c :: t) :: ts
        | [] => [[c]])
    [[]]

/-- Python int() on a string of ASCII digits: base-10 value. -/
def natOfDigits (l : List Char) : Nat :=
  l.foldl (fun a c => a * 10 + (c.toNat - 48)) 0

/-!
The overall-score regex of src/main.py (lines 242 and 291), applied with
re.match (anchored at the start):

    backslash-s* ( digits+ ) backslash-s* [-:] backslash-s* ( digits+ ) backslash-s* $

Greedy repetition here is deterministic: each repeated class is disjoint
from the character that must follow it (digits vs whitespace vs the
separator), so maximal munch is exactly the regex semantics.  The final
dollar anchor of re.match also matches just before a trailing newline, but
a trailing newline is whitespace and is already consumed by the preceding
whitespace star, so the anchor is equivalent to end-of-string here.
The two captured groups (the raw digit substrings) are returned.
-/
def parseOverall (s : List Char) : Option (List Char × List Char) :=
  let s1 := s.dropWhile isSpaceChar
  let d1 := s1.takeWhile isDigitChar
  if d1 = [] then none
  else
    match (s1.dropWhile isDigitChar).dropWhile isSpaceChar with
    | c :: r2 =>
      if c = '-' ∨ c = ':' then
        let r3 := r2.dropWhile isSpaceChar
        let d2 := r3.takeWhile isDigitChar
        if d2 = [] then none
        else if (r3.dropWhile isDigitChar).dropWhile isSpaceChar = [] then some (d1, d2)
        else none
      else none
    | [] => none

/-- The dollar anchor of re.match in full generality: end of string, or just
before a trailing newline. -/
def atDollar : List Char → Bool
  | [] => true
  | c :: r => c.toNat = 10 && r = []

/-!
The per-game score regex of src/main.py (line 298), applied with re.match to
an already stripped token:

    ( digits+ ) backslash-s* [-:] backslash-s* ( digits+ ) $

As above, greediness is deterministic; the trailing dollar is modelled
exactly (end of string or just before a trailing newline).
-/
def parseGame (p : List Char) : Option (List Char × List Char) :=
  let d1 := p.takeWhile isDigitChar
  if d1 = [] then none
  else
    match (p.dropWhile isDigitChar).dropWhile isSpaceChar with
    | c :: r2 =>
      if c = '-' ∨ c = ':' then
        let r3 := r2.dropWhile isSpaceChar
        let d2 := r3.takeWhile isDigitChar
        if d2 = [] then none
        else if atDollar (r3.dropWhile isDigitChar) then some (d1, d2)
        else none
      else none
    | [] => none

/-- flip_overall from src/main.py (build_india_block, lines 290-292): if the
score matches the overall pattern, emit the second captured group, a hyphen,
then the first captured group; otherwise return the string unchanged. -/
def flip_overall (s : List Char) : List Char :=
  match parseOverall s with
  | some (d1, d2) => d2 ++ '-' :: d1
  | none => s

/-- The per-token body of flip_games (src/main.py line 298-299). -/
def flipGameToken (p : List Char) : List Char :=
  match parseGame p with
  | some (d1, d2) => d2 ++ '-' :: d1
  | none => p

/-- flip_games from src/main.py (lines 294-300): split on commas, strip each
part, drop empty parts, flip each eligible token, join with commas. -/
def flip_games (gs : List Char) : List Char :=
  let parts := ((splitComma gs).map pyStrip).filter (fun p => p ≠ [])
  List.intercalate [','] (parts.map flipGameToken)

/-!  Round classifier: pretty_round of src/main.py, lines 188-210.

Each regex is used through re.search; the scanners below try the pattern at
every position of the string, carrying one bit of state: whether the
previous character is a word character, which decides the word-boundary
assertion at the match start. -/

/-- Match a literal; return the remaining input on success. -/
def dropLit : List Char → List Char → Option (List Char)
  | [], r => some r
  | _ :: _, [] => none
  | x :: xs, c :: r => if c = x then dropLit xs r else none

/-- Word-boundary assertion placed after a word character: holds at end of
input or when the next character is not a word character. -/
def boundaryAfterWord : List Char → Bool
  | [] => true
  | c :: _ => !isWordChar c

/-- Scanner for a boolean pattern: try the matcher at every position,
tracking whether the previous character is a word character. -/
def reSearchAux (mh : Bool → List Char → Bool) : Bool → List Char → Bool
  | prevW, [] => mh prevW []
  | prevW, c :: rest => mh prevW (c :: rest) || reSearchAux mh (isWordChar c) rest

def reSearch (mh : Bool → List Char → Bool) (l : List Char) : Bool :=
  reSearchAux mh false l

/-- Scanner for a pattern with one captured group: first matching position
wins, as with re.search. -/
def reSearchGroupAux (mh : Bool → List Char → Option (List Char)) :
    Bool → List Char → Option (List Char)
  | prevW, [] => mh prevW []
  | prevW, c :: rest =>
    match mh prevW (c :: rest) with
    | some g => some g
    | none => reSearchGroupAux mh (isWordChar c) rest

def reSearchGroup (mh : Bool → List Char → Option (List Char)) (l : List Char) :
    Option (List Char) :=
  reSearchGroupAux mh false l

/-- Tail of the semifinal/quarterfinal patterns: literal final, optional
plural s (greedy, with the one-step backtracking of the regex engine), then
a word boundary. -/
def matchFinalsTail (r : List Char) : Bool :=
  match dropLit "final".data r with
  | none => false
  | some r3 =>
    (match r3 with
     | 's' :: r4 => boundaryAfterWord r4
     | _ => false)
    || boundaryAfterWord r3

/-- One position of the semifinal search (line 195): word boundary, literal
semi, an optional hyphen-or-whitespace character (both alternatives of the
optional class are tried, as the engine backtracks), literal final, optional
s, word boundary. -/
def matchSemiAt (prevW : Bool) (l : List Char) : Bool :=
  !prevW &&
    (match dropLit "semi".data l with
     | none => false
     | some r =>
       (match r with
        | c :: r2 => (c = '-' || isSpaceChar c) && matchFinalsTail r2
        | [] => false)
       || matchFinalsTail r)

/-- One position of the quarterfinal search (line 197); same shape as
the semifinal pattern with literal quarter. -/
def matchQuarterAt (prevW : Bool) (l : List Char) : Bool :=
  !prevW &&
    (match dropLit "quarter".data l with
     | none => false
     | some r =>
       (match r with
        | c :: r2 => (c = '-' || isSpaceChar c) && matchFinalsTail r2
        | [] => false)
       || matchFinalsTail r)

/-- One position of the word-boundary final search (line 199). -/
def matchFinalAt (prevW : Bool) (l : List Char) : Bool :=
  !prevW &&
    (match dropLit "final".data l with
     | none => false
     | some r => boundaryAfterWord r)

/-- One-or-more whitespace (greedy; deterministic because what follows in
the pattern is never whitespace). -/
def dropSpaces1 : List Char → Option (List Char)
  | [] => none
  | c :: r => if isSpaceChar c then some (r.dropWhile isSpaceChar) else none

/-- Try exactly k digits followed by a word boundary. -/
def tryDigits (k : Nat) (l : List Char) : Option (List Char) :=
  let ds := l.take k
  if ds.length = k ∧ ds.all isDigitChar ∧ boundaryAfterWord (l.drop k) then some ds
  else none

/-- One to three digits, greedy with backtracking (three first, then two,
then one), each followed by a word boundary; the captured digit group is
returned. -/
def matchDigits13 (l : List Char) : Option (List Char) :=
  match tryDigits 3 l with
  | some g => some g
  | none =>
    match tryDigits 2 l with
    | some g => some g
    | none => tryDigits 1 l

/-- One position of the round-of-N search (line 201): word boundary, literal
round, whitespace+, literal of, whitespace+, one to three digits, word
boundary; run on the lowercased string. -/
def matchRoundOfAt (prevW : Bool) (l : List Char) : Option (List Char) :=
  if prevW then none
  else
    match dropLit "round".data l with
    | none => none
    | some r1 =>
      match dropSpaces1 r1 with
      | none => none
      | some r2 =>
        match dropLit "of".data r2 with
        | none => none
        | some r3 =>
          match dropSpaces1 r3 with
          | none => none
          | some r4 => matchDigits13 r4

/-- One position of the R-token search (line 204): word boundary, letter R
(case-insensitive), whitespace*, one to three digits, word boundary; run on
the stripped original-case string. -/
def matchRTokenAt (prevW : Bool) (l : List Char) : Option (List Char) :=
  if prevW then none
  else
    match l with
    | [] => none
    | c :: r => if c = 'R' ∨ c = 'r' then matchDigits13 (r.dropWhile isSpaceChar) else none

/-- One position of the bare-token search (line 207): word boundary, one of
the alternatives QF, SF, F in that order, word boundary; run on the
uppercased string.  The alternatives start with distinct letters, so trying
them in order at a fixed position is exact. -/
def matchQSFAt (prevW : Bool) (l : List Char) : Option (List Char) :=
  if prevW then none
  else
    match dropLit "QF".data l with
    | some r => if boundaryAfterWord r then some "QF".data else none
    | none =>
      match dropLit "SF".data l with
      | some r => if boundaryAfterWord r then some "SF".data else none
      | none =>
        match dropLit "F".data l with
        | some r => if boundaryAfterWord r then some "F".data else none
        | none => none

/-- ROUND_LABELS.get(g, g) of src/main.py line 188. -/
def roundLabelsGet (g : List Char) : List Char :=
  if g = "QF".data then "Quarterfinal".data
  else if g = "SF".data then "Semifinal".data
  else if g = "F".data then "Final".data
  else g

/-- pretty_round of src/main.py lines 190-210: strip, then try the six rules
in order on the lowercased text (rules one to four), the original text
case-insensitively (rule five) and the uppercased text (rule six). -/
def pretty_round (desc : List Char) : List Char :=
  if desc = [] then []
  else
    let t := pyStrip desc
    let tl := t.map toLowerChar
    if reSearch matchSemiAt tl then "Semifinal".data
    else if reSearch matchQuarterAt tl then "Quarterfinal".data
    else if reSearch matchFinalAt tl then "Final".data
    else
      match reSearchGroup matchRoundOfAt tl with
      | some g => 'R' :: g
      | none =>
        match reSearchGroup matchRTokenAt t with
        | some g => 'R' :: g
        | none =>
          match reSearchGroup matchQSFAt (t.map toUpperChar) with
          | some g => roundLabelsGet g
          | none => []

/-!  Nation-token matching: the helper at src/main.py lines 212-216. -/

/-- The delimiter class of the split regex at line 215: slash, whitespace,
comma, hyphen. -/
def isDelimChar (c : Char) : Bool :=
  c.toNat = 47 || isSpaceChar c || c.toNat = 44 || c.toNat = 45

/-- One step of run-splitting: a delimiter closes the current segment, and
consecutive delimiters (tracked by the boolean) open no extra segment, which
is the behaviour of re.split on a one-or-more delimiter class. -/
def reSplitStep (c : Char) (acc : List (List Char) × Bool) : List (List Char) × Bool :=
  if isDelimChar c then
    (if acc.2 then acc.1 else [] :: acc.1, true)
  else
    (match acc.1 with
     | t :: ts => (c :: t) :: ts
     | [] => [[c]],
     false)

/-- re.split on one-or-more delimiter characters: segments between maximal
delimiter runs, including an empty segment at an end that starts or ends
with a delimiter. -/
def reSplit (l : List Char) : List (List Char) :=
  (l.foldr reSplitStep ([[]], false)).1

/-- The nation filter of src/main.py lines 212-216: empty field fails; else
strip, uppercase, split on delimiter runs and test whether IND is one of the
resulting tokens. -/
def has_ind (org : List Char) : Bool :=
  if org = [] then false
  else decide (("IND".data : List Char) ∈ reSplit ((pyStrip org).map toUpperChar))

/-!  Event discovery: get_latest_completed_event_ids, src/main.py 144-154. -/

/-- The accumulation loop: per comma-separated part, strip, keep the digit
characters, then append if non-empty and not seen before. -/
def idsLoop : List (List Char) → List (List Char) → List (List Char)
  | [], _ => []
  | part :: rest, seen =>
    let eid := (pyStrip part).filter isDigitChar
    if eid ≠ [] ∧ eid ∉ seen then eid :: idsLoop rest (eid :: seen)
    else idsLoop rest seen

/-- get_latest_completed_event_ids on the raw configuration value (the body
after the HTTP fetch): strip the value, split on commas, run the loop. -/
def get_latest_completed_event_ids (raw : List Char) : List (List Char) :=
  idsLoop (splitComma (pyStrip raw)) []

/-!  A model of the Python values that the JSON payload may contain, with
Python truthiness, dict lookup, iteration and attribute errors. -/

inductive PyVal where
  | pnone : PyVal
  | pbool : Bool → PyVal
  | pint : Int → PyVal
  | pstr : List Char → PyVal
  | plist : List PyVal → PyVal
  | pdict : List (List Char × PyVal) → PyVal

/-- Python truthiness on the modelled values. -/
def pyTruthy : PyVal → Bool
  | .pnone => false
  | .pbool b => b
  | .pint n => decide (n ≠ 0)
  | .pstr s => !s.isEmpty
  | .plist l => !l.isEmpty
  | .pdict d => !d.isEmpty

/-- Python x or y. -/
def pyOr (x y : PyVal) : PyVal :=
  if pyTruthy x then x else y

/-- dict.get with a default (Python dicts have unique keys, so first match
in the association list). -/
def dictGet : List (List Char × PyVal) → List Char → PyVal → PyVal
  | [], _, dflt => dflt
  | (k, v) :: rest, key, dflt => if k = key then v else dictGet rest key dflt

/-- Python == between a value and a string literal: true only for an equal
string. -/
def pyEqStr (v : PyVal) (s : List Char) : Bool :=
  match v with
  | .pstr t => t = s
  | _ => false

/-- The exceptions that the normalizer can raise on malformed entries. -/
inductive PyErr where
  | attributeError : PyErr
  | typeError : PyErr
deriving DecidableEq

/-- Python iteration over a value: lists yield their items, strings their
characters, dicts their keys; anything else raises TypeError. -/
def pyIter : PyVal → Except PyErr (List PyVal)
  | .plist l => .ok l
  | .pstr s => .ok (s.map (fun c => .pstr [c]))
  | .pdict d => .ok (d.map (fun kv => PyVal.pstr kv.1))
  | _ => .error .typeError

/-- (c.get("competitiorOrg") or "").strip() from lines 231 and 233: a truthy
non-string raises AttributeError at the strip call. -/
def orgField (dc : List (List Char × PyVal)) : Except PyErr (List Char) :=
  match pyOr (dictGet dc "competitiorOrg".data .pnone) (.pstr []) with
  | .pstr s => .ok (pyStrip s)
  | _ => .error .attributeError

/-- The competitor loop of lines 229-233: split competitors into home and
away by the H/A tag, later entries overwriting earlier ones; a non-dict
competitor raises AttributeError at its get call. -/
def extractSides :
    List PyVal → Option (PyVal × List Char) → Option (PyVal × List Char) →
    Except PyErr (Option (PyVal × List Char) × Option (PyVal × List Char))
  | [], h, a => .ok (h, a)
  | c :: rest, h, a =>
    match c with
    | .pdict dc =>
      if pyEqStr (dictGet dc "competitorType".data .pnone) "H".data then
        match orgField dc with
        | .error e => .error e
        | .ok org => extractSides rest (some (dictGet dc "competitiorName".data (.pstr []), org)) a
      else if pyEqStr (dictGet dc "competitorType".data .pnone) "A".data then
        match orgField dc with
        | .error e => .error e
        | .ok org => extractSides rest h (some (dictGet dc "competitiorName".data (.pstr []), org))
      else extractSides rest h a
    | _ => .error .attributeError

/-- The winner rule of lines 241-245, on the overall-score string and the
two extracted names: strict pattern match, then the side with the strictly
greater number; ties and non-matching strings give the empty string.  (The
guard of line 242 that skips the regex on an empty string is subsumed: the
pattern rejects the empty string.) -/
def winnerOf (ov : List Char) (hName aName : PyVal) : PyVal :=
  match parseOverall ov with
  | some (d1, d2) =>
    if natOfDigits d1 > natOfDigits d2 then hName
    else if natOfDigits d2 > natOfDigits d1 then aName
    else .pstr []
  | none => .pstr []

/-- The canonical record built at lines 247-255.  Fields that Python never
forces to be strings stay PyVal; the nation fields and the round label are
always strings when the entry parses, and the overall score is a string
whenever it is truthy (a truthy non-string raises at the regex call). -/
structure MatchRec where
  SubEventName : PyVal
  Round : List Char
  Comp1 : PyVal
  Comp1_Nation : List Char
  Comp2 : PyVal
  Comp2_Nation : List Char
  Match_Score : PyVal
  Games_Score : PyVal
  Winner : PyVal

/-- The per-entry body of the parse_matches loop (lines 222-255). -/
def parseEntry (it : PyVal) : Except PyErr MatchRec :=
  match it with
  | .pdict dIt =>
    match pyOr (dictGet dIt "match_card".data .pnone) (.pdict []) with
    | .pdict mc =>
      let subEvent := pyOr (dictGet mc "subEventName".data .pnone)
        (pyOr (dictGet dIt "subEventType".data .pnone) (.pstr []))
      match pyOr (dictGet mc "subEventDescription".data .pnone) (.pstr []) with
      | .pstr desc =>
        let roundName := pretty_round desc
        match pyIter (pyOr (dictGet mc "competitiors".data .pnone) (.plist [])) with
        | .error e => .error e
        | .ok comps =>
          match extractSides comps .none .none with
          | .error e => .error e
          | .ok (h, a) =>
            let hName := (h.map Prod.fst).getD (.pstr [])
            let hOrg := (h.map Prod.snd).getD []
            let aName := (a.map Prod.fst).getD (.pstr [])
            let aOrg := (a.map Prod.snd).getD []
            let gameScores := pyOr (dictGet mc "resultsGameScores".data .pnone)
              (pyOr (dictGet mc "gameScores".data .pnone) (.pstr []))
            match pyOr (dictGet mc "resultOverallScores".data .pnone)
              (pyOr (dictGet mc "overallScores".data .pnone) (.pstr [])) with
            | .pstr ov =>
              .ok ⟨subEvent, roundName, hName, hOrg, aName, aOrg, .pstr ov, gameScores,
                winnerOf ov hName aName⟩
            | ovv =>
              if pyTruthy ovv then .error .typeError
              else
                .ok ⟨subEvent, roundName, hName, hOrg, aName, aOrg, ovv, gameScores, .pstr []⟩
      | _ => .error .attributeError
    | _ => .error .attributeError
  | _ => .error .attributeError

/-- The loop over entries: the first raising entry aborts the batch. -/
def parseItems : List PyVal → Except PyErr (List MatchRec)
  | [] => .ok []
  | it :: rest =>
    match parseEntry it with
    | .error e => .error e
    | .ok r =>
      match parseItems rest with
      | .error e => .error e
      | .ok rs => .ok (r :: rs)

/-- parse_matches of src/main.py lines 218-256: a list payload is the match
list itself; a dict payload contributes its matches field (default empty
list); any other payload contributes an empty list; then the entry loop
runs over a Python iteration of that value. -/
def parse_matches (payload : PyVal) : Except PyErr (List MatchRec) :=
  let itemsVal : PyVal :=
    match payload with
    | .plist l => .plist l
    | .pdict d => dictGet d "matches".data (.plist [])
    | _ => .plist []
  match pyIter itemsVal with
  | .error e => .error e
  | .ok items => parseItems items

/-- A value that is a string or falsy (so Python defaulting turns it into a
string or leaves it harmless). -/
def strOrFalsy (v : PyVal) : Bool :=
  match v with
  | .pstr _ => true
  | w => !pyTruthy w

def isPStr : PyVal → Bool
  | .pstr _ => true
  | _ => false

/-- A competitor entry of the expected shape: a dict whose org field is a
string or falsy. -/
def wellComp : PyVal → Bool
  | .pdict dc => isPStr (pyOr (dictGet dc "competitiorOrg".data .pnone) (.pstr []))
  | _ => false

/-- A competitors field of the expected shape: a list of well-shaped
competitor entries. -/
def compsOk : PyVal → Bool
  | .plist cs => cs.all wellComp
  | _ => false

/-- A match card of the expected shape: a dict whose description and
overall score are strings or falsy and whose competitors field is a list of
well-shaped competitors. -/
def wellShapedCard : PyVal → Bool
  | .pdict mc =>
    isPStr (pyOr (dictGet mc "subEventDescription".data .pnone) (.pstr []))
      && compsOk (pyOr (dictGet mc "competitiors".data .pnone) (.plist []))
      && strOrFalsy (pyOr (dictGet mc "resultOverallScores".data .pnone)
           (pyOr (dictGet mc "overallScores".data .pnone) (.pstr [])))
  | _ => false

/-- A match entry of the expected shape: a dict whose match_card, after the
falsy default, is a well-shaped card. -/
def wellShapedEntry : PyVal → Bool
  | .pdict dIt => wellShapedCard (pyOr (dictGet dIt "match_card".data .pnone) (.pdict []))
  | _ => false

def isListV : PyVal → Bool
  | .plist _ => true
  | _ => false

def isDictV : PyVal → Bool
  | .pdict _ => true
  | _ => false

/-!  Payload resolver: get_payload_static_or_live, src/main.py 164-185.
The two HTTP surfaces are oracles from a page size to an optional payload;
a None models every failure (404 or any other exception), which the source
treats alike by continuing with the next attempt. -/

def TAKE_TRY : List Nat := [200, 100, 50, 20, 10]

/-- First successful fetch over the candidate page sizes. -/
def firstSuccess (f : Nat → Option PyVal) : List Nat → Option PyVal
  | [] => none
  | t :: ts =>
    match f t with
    | some p => some p
    | none => firstSuccess f ts

/-- get_payload_static_or_live: all static attempts over the page sizes,
then all live attempts, first success wins, otherwise the RuntimeError of
line 185. -/
def get_payload_static_or_live (sf lf : Nat → Option PyVal) : Except (List Char) PyVal :=
  match firstSuccess sf TAKE_TRY with
  | some p => .ok p
  | none =>
    match firstSuccess lf TAKE_TRY with
    | some p => .ok p
    | none => .error "No payload available".data

/-- An attempt in the fallback chain: which tier and which page size. -/
inductive Attempt where
  | statAt : Nat → Attempt
  | liveAt : Nat → Attempt
deriving DecidableEq

/-- Like firstSuccess, also returning the page sizes attempted, in order. -/
def traceFirst (f : Nat → Option PyVal) : List Nat → List Nat × Option PyVal
  | [] => ([], none)
  | t :: ts =>
    match f t with
    | some p => ([t], some p)
    | none =>
      let r := traceFirst f ts
      (t :: r.1, r.2)

/-- The resolver together with the exact sequence of attempts it makes. -/
def resolveTrace (sf lf : Nat → Option PyVal) : List Attempt × Except (List Char) PyVal :=
  match traceFirst sf TAKE_TRY with
  | (ts, some p) => (ts.map Attempt.statAt, .ok p)
  | (ts, none) =>
    match traceFirst lf TAKE_TRY with
    | (tl, some p) => (ts.map Attempt.statAt ++ tl.map Attempt.liveAt, .ok p)
    | (tl, none) =>
      (ts.map Attempt.statAt ++ tl.map Attempt.liveAt, .error "No payload available".data)

/-- What one attempt returns. -/
def attemptEval (sf lf : Nat → Option PyVal) : Attempt → Option PyVal
  | .statAt t => sf t
  | .liveAt t => lf t

/-- The full fallback order: every static attempt, largest page size first,
then every live attempt in the same order. -/
def fullAttemptOrder : List Attempt :=
  TAKE_TRY.map Attempt.statAt ++ TAKE_TRY.map Attempt.liveAt

/-!  Nation-relative formatter: the loop body of build_india_block,
src/main.py lines 302-324, modelled for canonical records whose fields are
strings (the shape the data model gives them). -/

structure StrMatch where
  SubEventName : List Char
  Round : List Char
  Comp1 : List Char
  Comp1_Nation : List Char
  Comp2 : List Char
  Comp2_Nation : List Char
  Match_Score : List Char
  Games_Score : List Char
  Winner : List Char

/-- ind1 of line 307. -/
def compInd (m : StrMatch) : List Char :=
  if has_ind m.Comp1_Nation then m.Comp1 else m.Comp2

def oppName (m : StrMatch) : List Char :=
  if has_ind m.Comp1_Nation then m.Comp2 else m.Comp1

def oppNat (m : StrMatch) : List Char :=
  if has_ind m.Comp1_Nation then m.Comp2_Nation else m.Comp1_Nation

/-- opp_with of line 311. -/
def oppWith (m : StrMatch) : List Char :=
  if oppName m ≠ [] then oppName m ++ ' ' :: '(' :: (oppNat m ++ [')'])
  else '(' :: (oppNat m ++ [')'])

/-- The interpolated row-3 string of line 323. -/
def line3With (comp phr ov gs : List Char) : List Char :=
  comp ++ ' ' :: (phr ++ ' ' :: '(' :: (ov ++ ')' :: ' ' :: '(' :: (gs ++ [')'])))

/-- Row 3 of the match block, lines 313-323: the verb and the displayed
scores are chosen by comparing the winner with the target-side participant;
only the lost-to branch flips the scores. -/
def renderLine3 (m : StrMatch) : List Char :=
  if m.Winner = compInd m then
    line3With (compInd m) ("defeated ".data ++ oppWith m ++ " by".data)
      m.Match_Score m.Games_Score
  else if m.Winner = oppName m then
    line3With (compInd m) ("lost to ".data ++ oppWith m ++ " by".data)
      (flip_overall m.Match_Score) (flip_games m.Games_Score)
  else
    line3With (compInd m) ("vs ".data ++ oppWith m) m.Match_Score m.Games_Score

/-- The lines a selected match contributes to the block (lines 302-324):
the sub-event and round row, the narrative row, and a blank separator. -/
def renderMatchLines (m : StrMatch) : List (List Char) :=
  [pyStrip (m.SubEventName ++ ' ' :: m.Round), renderLine3 m, []]

/-!  Spec-side predicates, written from the specification text, to be
compared with the source-derived definitions above. -/

/-- The strict overall-score pattern as the specification words it:
optional whitespace, an integer, optional whitespace, a hyphen or colon,
optional whitespace, an integer, optional whitespace, and nothing else. -/
def ScoreDecomp (ov d1 d2 : List Char) : Prop :=
  ∃ w1 w2 w3 w4 sep,
    (sep = '-' ∨ sep = ':') ∧
    (∀ c ∈ w1, isSpaceChar c = true) ∧ (∀ c ∈ w2, isSpaceChar c = true) ∧
    (∀ c ∈ w3, isSpaceChar c = true) ∧ (∀ c ∈ w4, isSpaceChar c = true) ∧
    d1 ≠ [] ∧ (∀ c ∈ d1, isDigitChar c = true) ∧
    d2 ≠ [] ∧ (∀ c ∈ d2, isDigitChar c = true) ∧
    ov = w1 ++ d1 ++ w2 ++ sep :: (w3 ++ d2 ++ w4)

/-- What may follow a whole token: the string edge or a delimiter. -/
def TokenPost (post : List Char) : Prop :=
  post = [] ∨ ∃ d post0, post = d :: post0 ∧ isDelimChar d = true

/-- t occurs in s as a whole token somewhere after a delimiter, with the
string edge or a delimiter after it. -/
def TokenDecompNE (s t : List Char) : Prop :=
  ∃ pre0 d post, s = pre0 ++ d :: (t ++ post) ∧ isDelimChar d = true ∧ TokenPost post

/-- t occurs in s as a whole delimiter-bounded token: either at the very
start, or right after a delimiter, with the string edge or a delimiter
following it in both cases. -/
def TokenDecomp (s t : List Char) : Prop :=
  (∃ post, s = t ++ post ∧ TokenPost post) ∨ TokenDecompNE s t

/-- The flag carried by the split fold: whether the first character of the
remaining input is a delimiter. -/
def reSplitFlag (s : List Char) : Bool :=
  (List.foldr reSplitStep ([[]], false) s).2

/-!  Helper lemmas: character classes and maximal-munch scanning. -/

theorem digitChar_bounds {c : Char} (h : isDigitChar c = true) :
    48 ≤ c.toNat ∧ c.toNat ≤ 57 := by
  simpa [isDigitChar, Bool.and_eq_true, decide_eq_true_eq] using h

theorem spaceChar_cases {c : Char} (h : isSpaceChar c = true) :
    c.toNat = 32 ∨ c.toNat = 9 ∨ c.toNat = 10 ∨ c.toNat = 13 ∨ c.toNat = 11 ∨ c.toNat = 12 := by
  simp only [isSpaceChar, Bool.or_eq_true, decide_eq_true_eq] at h
  omega

theorem digit_not_space {c : Char} (h : isDigitChar c = true) : isSpaceChar c = false := by
  cases hs : isSpaceChar c with
  | false => rfl
  | true =>
    have h1 := digitChar_bounds h
    have h2 := spaceChar_cases hs
    omega

theorem space_not_digit {c : Char} (h : isSpaceChar c = true) : isDigitChar c = false := by
  cases hd : isDigitChar c with
  | false => rfl
  | true =>
    have h1 := digitChar_bounds hd
    have h2 := spaceChar_cases h
    omega

theorem takeWhile_mem_pred {α : Type} {p : α → Bool} :
    ∀ {l : List α} {c : α}, c ∈ l.takeWhile p → p c = true := by
  intro l
  induction l with
  | nil => intro c h; simp [List.takeWhile] at h
  | cons x xs ih =>
    intro c h
    rw [List.takeWhile_cons] at h
    by_cases hx : p x = true
    · simp [hx] at h
      rcases h with rfl | h
      · exact hx
      · exact ih h
    · simp [Bool.eq_false_iff.mpr hx] at h

theorem all_of_dropWhile_nil {α : Type} {p : α → Bool} :
    ∀ {l : List α}, l.dropWhile p = [] → ∀ c ∈ l, p c = true := by
  intro l
  induction l with
  | nil => intro _ c hc; simp at hc
  | cons x xs ih =>
    intro h c hc
    rw [List.dropWhile_cons] at h
    by_cases hx : p x = true
    · simp only [hx, if_true] at h
      rcases List.mem_cons.mp hc with rfl | hc2
      · exact hx
      · exact ih h c hc2
    · simp [Bool.eq_false_iff.mpr hx] at h

/-- takeWhile over an all-true block followed by a stopping head. -/
theorem takeWhile_block {α : Type} {p : α → Bool} {l r : List α}
    (h : ∀ c ∈ l, p c = true)
    (h2 : r = [] ∨ ∃ c rs, r = c :: rs ∧ p c = false) :
    (l ++ r).takeWhile p = l := by
  rw [List.takeWhile_append_of_pos (by intro a ha; exact h a ha)]
  rcases h2 with rfl | ⟨c, rs, rfl, hc⟩
  · simp
  · simp [List.takeWhile_cons, hc]

/-- dropWhile over an all-true block followed by a stopping head. -/
theorem dropWhile_block {α : Type} {p : α → Bool} {l r : List α}
    (h : ∀ c ∈ l, p c = true)
    (h2 : r = [] ∨ ∃ c rs, r = c :: rs ∧ p c = false) :
    (l ++ r).dropWhile p = r := by
  rw [List.dropWhile_append_of_pos (by intro a ha; exact h a ha)]
  rcases h2 with rfl | ⟨c, rs, rfl, hc⟩
  · simp
  · simp [List.dropWhile_cons, hc]

theorem sep_not_digit {sep : Char} (h : sep = '-' ∨ sep = ':') : isDigitChar sep = false := by
  rcases h with rfl | rfl <;> decide

theorem sep_not_space {sep : Char} (h : sep = '-' ∨ sep = ':') : isSpaceChar sep = false := by
  rcases h with rfl | rfl <;> decide

/-- Completeness of the overall-score parser: any string of the specified
shape parses, with the two digit runs as the captured groups. -/
theorem parseOverall_complete {ov d1 d2 : List Char} (h : ScoreDecomp ov d1 d2) :
    parseOverall ov = some (d1, d2) := by
  obtain ⟨w1, w2, w3, w4, sep, hsep, hw1, hw2, hw3, hw4, hd1ne, hd1, hd2ne, hd2, hov⟩ := h
  obtain ⟨a1, t1, rfl⟩ : ∃ a t, d1 = a :: t := by
    cases d1 with
    | nil => exact absurd rfl hd1ne
    | cons a t => exact ⟨a, t, rfl⟩
  obtain ⟨a2, t2, rfl⟩ : ∃ a t, d2 = a :: t := by
    cases d2 with
    | nil => exact absurd rfl hd2ne
    | cons a t => exact ⟨a, t, rfl⟩
  subst hov
  have stop1 : ∃ c rs, (a1 :: t1) ++ (w2 ++ sep :: (w3 ++ (a2 :: t2) ++ w4)) = c :: rs ∧
      isSpaceChar c = false :=
    ⟨a1, _, rfl, digit_not_space (hd1 a1 (by simp))⟩
  have e1 : (w1 ++ ((a1 :: t1) ++ (w2 ++ sep :: (w3 ++ (a2 :: t2) ++ w4)))).dropWhile isSpaceChar
      = (a1 :: t1) ++ (w2 ++ sep :: (w3 ++ (a2 :: t2) ++ w4)) :=
    dropWhile_block hw1 (Or.inr stop1)
  have stop2 : (w2 ++ sep :: (w3 ++ (a2 :: t2) ++ w4)) = [] ∨
      ∃ c rs, (w2 ++ sep :: (w3 ++ (a2 :: t2) ++ w4)) = c :: rs ∧ isDigitChar c = false := by
    cases w2 with
    | nil => exact Or.inr ⟨sep, _, rfl, sep_not_digit hsep⟩
    | cons b bs =>
      exact Or.inr ⟨b, _, rfl, space_not_digit (hw2 b (by simp))⟩
  have e2 : ((a1 :: t1) ++ (w2 ++ sep :: (w3 ++ (a2 :: t2) ++ w4))).takeWhile isDigitChar
      = a1 :: t1 := takeWhile_block hd1 stop2
  have e3 : ((a1 :: t1) ++ (w2 ++ sep :: (w3 ++ (a2 :: t2) ++ w4))).dropWhile isDigitChar
      = w2 ++ sep :: (w3 ++ (a2 :: t2) ++ w4) := dropWhile_block hd1 stop2
  have e4 : (w2 ++ sep :: (w3 ++ (a2 :: t2) ++ w4)).dropWhile isSpaceChar
      = sep :: (w3 ++ (a2 :: t2) ++ w4) :=
    dropWhile_block hw2 (Or.inr ⟨sep, _, rfl, sep_not_space hsep⟩)
  have stop5 : ((a2 :: t2) ++ w4) = [] ∨
      ∃ c rs, ((a2 :: t2) ++ w4) = c :: rs ∧ isSpaceChar c = false :=
    Or.inr ⟨a2, _, rfl, digit_not_space (hd2 a2 (by simp))⟩
  have e5 : (w3 ++ (a2 :: t2) ++ w4).dropWhile isSpaceChar = (a2 :: t2) ++ w4 := by
    rw [List.append_assoc]
    exact dropWhile_block hw3 stop5
  have stop6 : w4 = [] ∨ ∃ c rs, w4 = c :: rs ∧ isDigitChar c = false := by
    cases w4 with
    | nil => exact Or.inl rfl
    | cons b bs => exact Or.inr ⟨b, bs, rfl, space_not_digit (hw4 b (by simp))⟩
  have e6 : ((a2 :: t2) ++ w4).takeWhile isDigitChar = a2 :: t2 := takeWhile_block hd2 stop6
  have e7 : ((a2 :: t2) ++ w4).dropWhile isDigitChar = w4 := dropWhile_block hd2 stop6
  have e8 : w4.dropWhile isSpaceChar = [] := by
    have : (w4 ++ ([] : List Char)).dropWhile isSpaceChar = [] := dropWhile_block hw4 (Or.inl rfl)
    simpa using this
  simp only [List.cons_append, List.append_assoc] at e1 e2 e3 e4 e5 e6 e7 e8
  simp only [parseOverall, List.cons_append, List.append_assoc]
  rw [e1, e2, e3, e4]
  simp only [List.cons_append, List.append_assoc] at *
  rw [e5, e6, e7, e8]
  simp [hsep]

/-- Soundness of the overall-score parser: a successful parse exhibits the
specified decomposition with the captured groups. -/
theorem parseOverall_sound {ov d1 d2 : List Char} (h : parseOverall ov = some (d1, d2)) :
    ScoreDecomp ov d1 d2 := by
  unfold parseOverall at h
  by_cases h1 : (ov.dropWhile isSpaceChar).takeWhile isDigitChar = []
  · simp [h1] at h
  · rw [if_neg h1] at h
    rcases hr : ((ov.dropWhile isSpaceChar).dropWhile isDigitChar).dropWhile isSpaceChar with
      _ | ⟨c, r2⟩
    · rw [hr] at h; exact absurd h (by simp)
    · rw [hr] at h
      dsimp only at h
      by_cases hc : c = '-' ∨ c = ':'
      · rw [if_pos hc] at h
        by_cases h2 : (r2.dropWhile isSpaceChar).takeWhile isDigitChar = []
        · simp [h2] at h
        · rw [if_neg h2] at h
          by_cases h3 :
              ((r2.dropWhile isSpaceChar).dropWhile isDigitChar).dropWhile isSpaceChar = []
          · rw [if_pos h3] at h
            have hd1 : d1 = (ov.dropWhile isSpaceChar).takeWhile isDigitChar := by
              cases h; rfl
            have hd2 : d2 = (r2.dropWhile isSpaceChar).takeWhile isDigitChar := by
              cases h; rfl
            subst hd1; subst hd2
            refine ⟨ov.takeWhile isSpaceChar,
              ((ov.dropWhile isSpaceChar).dropWhile isDigitChar).takeWhile isSpaceChar,
              r2.takeWhile isSpaceChar,
              (r2.dropWhile isSpaceChar).dropWhile isDigitChar,
              c, hc, ?_, ?_, ?_, ?_, h1, ?_, h2, ?_, ?_⟩
            · intro x hx; exact takeWhile_mem_pred hx
            · intro x hx; exact takeWhile_mem_pred hx
            · intro x hx; exact takeWhile_mem_pred hx
            · intro x hx; exact all_of_dropWhile_nil h3 x hx
            · intro x hx; exact takeWhile_mem_pred hx
            · intro x hx; exact takeWhile_mem_pred hx
            · have eA := (List.takeWhile_append_dropWhile isSpaceChar ov).symm
              have eB :=
                (List.takeWhile_append_dropWhile isDigitChar (ov.dropWhile isSpaceChar)).symm
              have eC := (List.takeWhile_append_dropWhile isSpaceChar
                ((ov.dropWhile isSpaceChar).dropWhile isDigitChar)).symm
              rw [hr] at eC
              have eD := (List.takeWhile_append_dropWhile isSpaceChar r2).symm
              have eE :=
                (List.takeWhile_append_dropWhile isDigitChar (r2.dropWhile isSpaceChar)).symm
              conv_lhs => rw [eA]
              conv_lhs => rw [eB]
              conv_lhs => rw [eC]
              conv_lhs => rw [eD]
              conv_lhs => rw [eE]
              simp [List.append_assoc]
          · rw [if_neg h3] at h; exact absurd h (by simp)
      · rw [if_neg hc] at h; exact absurd h (by simp)

theorem takeWhile_all {α : Type} {p : α → Bool} {l : List α} (h : ∀ c ∈ l, p c = true) :
    l.takeWhile p = l := by
  have := takeWhile_block h (Or.inl rfl)
  simpa using this

theorem dropWhile_all {α : Type} {p : α → Bool} {l : List α} (h : ∀ c ∈ l, p c = true) :
    l.dropWhile p = [] := by
  have := dropWhile_block h (Or.inl rfl)
  simpa using this

/-- The per-game parser accepts a plain hyphen-joined pair of digit runs,
capturing the two runs. -/
theorem parseGame_canonical {d1 d2 : List Char}
    (h1 : d1 ≠ []) (hd1 : ∀ c ∈ d1, isDigitChar c = true)
    (h2 : d2 ≠ []) (hd2 : ∀ c ∈ d2, isDigitChar c = true) :
    parseGame (d1 ++ '-' :: d2) = some (d1, d2) := by
  obtain ⟨a1, t1, rfl⟩ : ∃ a t, d1 = a :: t := by
    cases d1 with
    | nil => exact absurd rfl h1
    | cons a t => exact ⟨a, t, rfl⟩
  obtain ⟨a2, t2, rfl⟩ : ∃ a t, d2 = a :: t := by
    cases d2 with
    | nil => exact absurd rfl h2
    | cons a t => exact ⟨a, t, rfl⟩
  have stopSep : ('-' :: (a2 :: t2) : List Char) = [] ∨
      ∃ c rs, ('-' :: (a2 :: t2) : List Char) = c :: rs ∧ isDigitChar c = false :=
    Or.inr ⟨'-', _, rfl, by decide⟩
  have e1 : ((a1 :: t1) ++ '-' :: (a2 :: t2)).takeWhile isDigitChar = a1 :: t1 :=
    takeWhile_block hd1 stopSep
  have e2 : ((a1 :: t1) ++ '-' :: (a2 :: t2)).dropWhile isDigitChar = '-' :: (a2 :: t2) :=
    dropWhile_block hd1 stopSep
  have e3 : ('-' :: (a2 :: t2) : List Char).dropWhile isSpaceChar = '-' :: (a2 :: t2) := by
    rw [List.dropWhile_cons_of_neg]
    decide
  have e4 : (a2 :: t2 : List Char).dropWhile isSpaceChar = a2 :: t2 := by
    rw [List.dropWhile_cons_of_neg]
    simp [digit_not_space (hd2 a2 (by simp))]
  have e5 : (a2 :: t2 : List Char).takeWhile isDigitChar = a2 :: t2 := takeWhile_all hd2
  have e6 : (a2 :: t2 : List Char).dropWhile isDigitChar = [] := dropWhile_all hd2
  simp only [parseGame, List.cons_append, List.append_assoc] at *
  rw [e1, e2, e3]
  dsimp only
  rw [if_pos (Or.inl rfl)]
  rw [e4, e5, e6]
  simp [atDollar]

/-!  Claim theorems. -/

/-- Claim C2: winner determination on a raw overall-score string.  The
parser succeeds exactly on strings of the strict shape: optional
whitespace, digits, optional whitespace, a hyphen or colon, optional
whitespace, digits, optional whitespace and nothing else, capturing the two
digit groups; on success the winner is the home name when the first number
is strictly greater, the away name when the second is strictly greater, and
the empty string on a tie; on failure (including the empty string) the
winner is the empty string. -/
theorem c2_winner_rule :
    (∀ ov d1 d2 : List Char, parseOverall ov = some (d1, d2) ↔ ScoreDecomp ov d1 d2) ∧
    (∀ (ov : List Char) (hN aN : PyVal) (d1 d2 : List Char),
      parseOverall ov = some (d1, d2) →
      winnerOf ov hN aN =
        if natOfDigits d1 > natOfDigits d2 then hN
        else if natOfDigits d2 > natOfDigits d1 then aN
        else .pstr []) ∧
    (∀ (ov : List Char) (hN aN : PyVal), parseOverall ov = none →
      winnerOf ov hN aN = .pstr []) := by
  refine ⟨fun ov d1 d2 => ⟨parseOverall_sound, parseOverall_complete⟩, ?_, ?_⟩
  · intro ov hN aN d1 d2 h
    unfold winnerOf
    rw [h]
  · intro ov hN aN h
    unfold winnerOf
    rw [h]

theorem c2_winner_rule_witness :
    winnerOf "21:9".data (.pstr "H".data) (.pstr "A".data) = .pstr "H".data ∧
    winnerOf "3-3".data (.pstr "H".data) (.pstr "A".data) = .pstr [] ∧
    winnerOf "3-1x".data (.pstr "H".data) (.pstr "A".data) = .pstr [] ∧
    ScoreDecomp " 3 - 1 ".data "3".data "1".data := by
  refine ⟨?_, ?_, ?_, ?_⟩
  · rw [c2_winner_rule.2.1 "21:9".data (.pstr "H".data) (.pstr "A".data)
      "21".data "9".data (by decide)]
    rfl
  · rw [c2_winner_rule.2.1 "3-3".data (.pstr "H".data) (.pstr "A".data)
      "3".data "3".data (by decide)]
    rfl
  · exact c2_winner_rule.2.2 "3-1x".data (.pstr "H".data) (.pstr "A".data) (by decide)
  · exact (c2_winner_rule.1 " 3 - 1 ".data "3".data "1".data).mp (by decide)

/-- Claim C3, corrected.  The flip is the identity on every string the
pattern rejects (and per token for the game flip); flipping twice is the
identity on scores already in plain hyphen form, two digit runs joined by a
single hyphen with no surrounding whitespace, because one flip of such a
score swaps the two captured runs verbatim.  (On other eligible scores a
flip normalizes the separator and whitespace, so a double flip returns the
normalized form, not the original: see the counterexample.) -/
theorem c3_flip_normalization :
    (∀ s : List Char, parseOverall s = none → flip_overall s = s) ∧
    (∀ d1 d2 : List Char,
      d1 ≠ [] → (∀ c ∈ d1, isDigitChar c = true) →
      d2 ≠ [] → (∀ c ∈ d2, isDigitChar c = true) →
      flip_overall (d1 ++ '-' :: d2) = d2 ++ '-' :: d1 ∧
      flip_overall (flip_overall (d1 ++ '-' :: d2)) = d1 ++ '-' :: d2) ∧
    (∀ p : List Char, parseGame p = none → flipGameToken p = p) ∧
    (∀ d1 d2 : List Char,
      d1 ≠ [] → (∀ c ∈ d1, isDigitChar c = true) →
      d2 ≠ [] → (∀ c ∈ d2, isDigitChar c = true) →
      flipGameToken (d1 ++ '-' :: d2) = d2 ++ '-' :: d1 ∧
      flipGameToken (flipGameToken (d1 ++ '-' :: d2)) = d1 ++ '-' :: d2) := by
  have hover : ∀ d1 d2 : List Char,
      d1 ≠ [] → (∀ c ∈ d1, isDigitChar c = true) →
      d2 ≠ [] → (∀ c ∈ d2, isDigitChar c = true) →
      flip_overall (d1 ++ '-' :: d2) = d2 ++ '-' :: d1 := by
    intro d1 d2 h1 hd1 h2 hd2
    unfold flip_overall
    rw [parseOverall_complete ⟨[], [], [], [], '-', Or.inl rfl, by simp, by simp, by simp,
      by simp, h1, hd1, h2, hd2, by simp⟩]
  have hgame : ∀ d1 d2 : List Char,
      d1 ≠ [] → (∀ c ∈ d1, isDigitChar c = true) →
      d2 ≠ [] → (∀ c ∈ d2, isDigitChar c = true) →
      flipGameToken (d1 ++ '-' :: d2) = d2 ++ '-' :: d1 := by
    intro d1 d2 h1 hd1 h2 hd2
    unfold flipGameToken
    rw [parseGame_canonical h1 hd1 h2 hd2]
  refine ⟨?_, ?_, ?_, ?_⟩
  · intro s h; unfold flip_overall; rw [h]
  · intro d1 d2 h1 hd1 h2 hd2
    refine ⟨hover d1 d2 h1 hd1 h2 hd2, ?_⟩
    rw [hover d1 d2 h1 hd1 h2 hd2, hover d2 d1 h2 hd2 h1 hd1]
  · intro p h; unfold flipGameToken; rw [h]
  · intro d1 d2 h1 hd1 h2 hd2
    refine ⟨hgame d1 d2 h1 hd1 h2 hd2, ?_⟩
    rw [hgame d1 d2 h1 hd1 h2 hd2, hgame d2 d1 h2 hd2 h1 hd1]

theorem c3_flip_normalization_witness :
    flip_overall "abc".data = "abc".data ∧
    flip_overall "13-08".data = "08-13".data ∧
    flip_overall (flip_overall "13-08".data) = "13-08".data ∧
    flipGameToken "11-9".data = "9-11".data ∧
    flipGameToken (flipGameToken "11-9".data) = "11-9".data := by
  refine ⟨c3_flip_normalization.1 "abc".data (by decide), ?_, ?_, ?_, ?_⟩
  · exact ((c3_flip_normalization.2.1 "13".data "08".data (by decide) (by decide)
      (by decide) (by decide)).1)
  · exact ((c3_flip_normalization.2.1 "13".data "08".data (by decide) (by decide)
      (by decide) (by decide)).2)
  · exact ((c3_flip_normalization.2.2.2 "11".data "9".data (by decide) (by decide)
      (by decide) (by decide)).1)
  · exact ((c3_flip_normalization.2.2.2 "11".data "9".data (by decide) (by decide)
      (by decide) (by decide)).2)

/-- Claim C3 counterexample: the score with a colon separator is
flip-eligible, yet flipping it twice yields the hyphen-normalized form, not
the original string, so the flip is not involutive on all eligible
scores. -/
theorem c3_involution_counterexample :
    (parseOverall "3:1".data).isSome = true ∧
    flip_overall (flip_overall "3:1".data) = "3-1".data ∧
    "3-1".data ≠ "3:1".data := by
  refine ⟨by decide, by decide, by decide⟩

/-!  Discovery lemmas. -/

theorem idsLoop_mem :
    ∀ (l seen : List (List Char)) (x : List Char),
      x ∈ idsLoop l seen ↔
        x ∉ seen ∧ x ≠ [] ∧
          x ∈ l.map (fun part => (pyStrip part).filter isDigitChar) := by
  intro l
  induction l with
  | nil => intro seen x; simp [idsLoop]
  | cons part rest ih =>
    intro seen x
    simp only [idsLoop, List.map_cons]
    by_cases hc : (pyStrip part).filter isDigitChar ≠ [] ∧
        (pyStrip part).filter isDigitChar ∉ seen
    · rw [if_pos hc]
      constructor
      · intro hx
        rcases List.mem_cons.mp hx with rfl | hx2
        · exact ⟨hc.2, hc.1, List.mem_cons_self _ _⟩
        · obtain ⟨h1, h2, h3⟩ := (ih _ x).mp hx2
          exact ⟨fun hm => h1 (List.mem_cons_of_mem _ hm), h2, List.mem_cons_of_mem _ h3⟩
      · rintro ⟨hns, hne, hmem⟩
        rcases List.mem_cons.mp hmem with heq | hmem2
        · rw [heq]; exact List.mem_cons_self _ _
        · by_cases hx : x = (pyStrip part).filter isDigitChar
          · rw [hx]; exact List.mem_cons_self _ _
          · refine List.mem_cons_of_mem _ ((ih _ x).mpr ⟨?_, hne, hmem2⟩)
            intro hmm
            rcases List.mem_cons.mp hmm with h1 | h1
            · exact hx h1
            · exact hns h1
    · rw [if_neg hc, ih]
      constructor
      · rintro ⟨hns, hne, hmem⟩
        exact ⟨hns, hne, List.mem_cons_of_mem _ hmem⟩
      · rintro ⟨hns, hne, hmem⟩
        rcases List.mem_cons.mp hmem with heq | hmem2
        · exfalso
          rw [not_and_or] at hc
          rcases hc with hc | hc
          · rw [heq] at hne
            exact hne (not_not.mp hc)
          · rw [heq] at hns
            exact hns (not_not.mp hc)
        · exact ⟨hns, hne, hmem2⟩

theorem idsLoop_nodup : ∀ (l seen : List (List Char)), (idsLoop l seen).Nodup := by
  intro l
  induction l with
  | nil => intro seen; simp [idsLoop]
  | cons part rest ih =>
    intro seen
    simp only [idsLoop]
    by_cases hc : (pyStrip part).filter isDigitChar ≠ [] ∧
        (pyStrip part).filter isDigitChar ∉ seen
    · rw [if_pos hc]
      rw [List.nodup_cons]
      refine ⟨?_, ih _⟩
      intro hmem
      have := (idsLoop_mem rest _ _).mp hmem
      exact this.1 (List.mem_cons_self _ _)
    · rw [if_neg hc]
      exact ih seen

theorem idsLoop_sublist :
    ∀ (l seen : List (List Char)),
      List.Sublist (idsLoop l seen)
        (l.map (fun part => (pyStrip part).filter isDigitChar)) := by
  intro l
  induction l with
  | nil => intro seen; simp [idsLoop]
  | cons part rest ih =>
    intro seen
    simp only [idsLoop, List.map_cons]
    by_cases hc : (pyStrip part).filter isDigitChar ≠ [] ∧
        (pyStrip part).filter isDigitChar ∉ seen
    · rw [if_pos hc]
      exact List.Sublist.cons₂ _ (ih _)
    · rw [if_neg hc]
      exact List.Sublist.cons _ (ih seen)

/-- Claim C7: discovery returns, in first-appearance order, the digit-runs
of the comma-separated parts: membership is exactly the non-empty digit
extractions, the output order is a subsequence of the part order (stable),
the results are pairwise distinct, every result is non-empty and
digits-only, and the worked example holds. -/
theorem c7_discovery :
    (∀ raw x, x ∈ get_latest_completed_event_ids raw ↔
      x ≠ [] ∧
        x ∈ (splitComma (pyStrip raw)).map (fun part => (pyStrip part).filter isDigitChar)) ∧
    (∀ raw, (get_latest_completed_event_ids raw).Nodup) ∧
    (∀ raw, List.Sublist (get_latest_completed_event_ids raw)
      ((splitComma (pyStrip raw)).map (fun part => (pyStrip part).filter isDigitChar))) ∧
    (∀ raw x, x ∈ get_latest_completed_event_ids raw →
      x ≠ [] ∧ ∀ c ∈ x, isDigitChar c = true) ∧
    get_latest_completed_event_ids "101,102,101, 103".data =
      ["101".data, "102".data, "103".data] := by
  refine ⟨?_, ?_, ?_, ?_, by decide⟩
  · intro raw x
    rw [get_latest_completed_event_ids, idsLoop_mem]
    simp
  · intro raw
    exact idsLoop_nodup _ _
  · intro raw
    exact idsLoop_sublist _ _
  · intro raw x hx
    have h := (idsLoop_mem _ _ _).mp hx
    refine ⟨h.2.1, ?_⟩
    rcases List.mem_map.mp h.2.2 with ⟨part, _, rfl⟩
    intro c hc
    exact (List.mem_filter.mp hc).2

theorem c7_discovery_witness :
    ("123".data ∈ get_latest_completed_event_ids " x123 , 123, 045".data ↔
      "123".data ≠ [] ∧
        "123".data ∈ (splitComma (pyStrip " x123 , 123, 045".data)).map
          (fun part => (pyStrip part).filter isDigitChar)) ∧
    ("123".data ≠ [] ∧ ∀ c ∈ "123".data, isDigitChar c = true) :=
  ⟨c7_discovery.1 " x123 , 123, 045".data "123".data,
   c7_discovery.2.2.2.1 " x123 , 123, 045".data "123".data (by decide)⟩

/-!  Payload-resolver lemmas. -/

theorem traceFirst_snd (f : Nat → Option PyVal) :
    ∀ l, (traceFirst f l).2 = firstSuccess f l := by
  intro l
  induction l with
  | nil => rfl
  | cons t ts ih =>
    cases hft : f t with
    | some p => simp [traceFirst, firstSuccess, hft]
    | none => simp [traceFirst, firstSuccess, hft, ih]

theorem traceFirst_prefix (f : Nat → Option PyVal) :
    ∀ l, ∃ rest, (traceFirst f l).1 ++ rest = l := by
  intro l
  induction l with
  | nil => exact ⟨[], rfl⟩
  | cons t ts ih =>
    cases hft : f t with
    | some p => exact ⟨ts, by simp [traceFirst, hft]⟩
    | none =>
      obtain ⟨rest, hrest⟩ := ih
      exact ⟨rest, by simp [traceFirst, hft, hrest]⟩

theorem traceFirst_none (f : Nat → Option PyVal) :
    ∀ l, (traceFirst f l).2 = none → (traceFirst f l).1 = l := by
  intro l
  induction l with
  | nil => intro _; rfl
  | cons t ts ih =>
    intro h
    cases hft : f t with
    | some p => simp [traceFirst, hft] at h
    | none =>
      simp only [traceFirst, hft] at h ⊢
      simp [ih h]

theorem traceFirst_none_all (f : Nat → Option PyVal) :
    ∀ l, (traceFirst f l).2 = none → ∀ t ∈ l, f t = none := by
  intro l
  induction l with
  | nil => intro _ t ht; simp at ht
  | cons u ts ih =>
    intro h t ht
    cases hft : f u with
    | some p => simp [traceFirst, hft] at h
    | none =>
      simp only [traceFirst, hft] at h
      rcases List.mem_cons.mp ht with rfl | ht2
      · exact hft
      · exact ih h t ht2

theorem traceFirst_success (f : Nat → Option PyVal) :
    ∀ l p, (traceFirst f l).2 = some p →
      ∃ pre t, (traceFirst f l).1 = pre ++ [t] ∧ f t = some p ∧ ∀ u ∈ pre, f u = none := by
  intro l
  induction l with
  | nil => intro p h; simp [traceFirst] at h
  | cons u ts ih =>
    intro p h
    cases hft : f u with
    | some q =>
      simp only [traceFirst, hft] at h ⊢
      cases h
      exact ⟨[], u, by simp, hft, by simp⟩
    | none =>
      simp only [traceFirst, hft] at h ⊢
      obtain ⟨pre, t, h1, h2, h3⟩ := ih p h
      refine ⟨u :: pre, t, by simp [h1], h2, ?_⟩
      intro v hv
      rcases List.mem_cons.mp hv with rfl | hv2
      · exact hft
      · exact h3 v hv2

theorem firstSuccess_none (f : Nat → Option PyVal) :
    ∀ l, (∀ t ∈ l, f t = none) → firstSuccess f l = none := by
  intro l
  induction l with
  | nil => intro _; rfl
  | cons t ts ih =>
    intro h
    simp [firstSuccess, h t (List.mem_cons_self _ _), ih fun u hu => h u (List.mem_cons_of_mem _ hu)]

/-- Claim C8: the resolver tries every static attempt over the page sizes
from largest to smallest, then every live attempt over the same sizes; the
attempts made are always an initial run of that full order; on success the
last attempt made succeeded and all earlier ones failed (so nothing after
the first success is ever attempted, and per-attempt failures only advance
the chain); if the first static page size succeeds the only attempt made is
that one, so no live call occurs; if every attempt in both tiers fails the
resolver fails with the payload-unavailable error. -/
theorem c8_fallback :
    ∀ sf lf : Nat → Option PyVal,
      ((resolveTrace sf lf).2 = get_payload_static_or_live sf lf) ∧
      (∃ rest, (resolveTrace sf lf).1 ++ rest = fullAttemptOrder) ∧
      (∀ p, (resolveTrace sf lf).2 = .ok p →
        ∃ pre a, (resolveTrace sf lf).1 = pre ++ [a] ∧
          attemptEval sf lf a = some p ∧ ∀ b ∈ pre, attemptEval sf lf b = none) ∧
      (∀ p, sf 200 = some p → resolveTrace sf lf = ([Attempt.statAt 200], .ok p)) ∧
      ((∀ t ∈ TAKE_TRY, sf t = none) → (∀ t ∈ TAKE_TRY, lf t = none) →
        get_payload_static_or_live sf lf = .error "No payload available".data) := by
  intro sf lf
  rcases h1 : traceFirst sf TAKE_TRY with ⟨ts, r1⟩
  have hs1 : firstSuccess sf TAKE_TRY = r1 := by rw [← traceFirst_snd, h1]
  rcases h2 : traceFirst lf TAKE_TRY with ⟨tl, r2⟩
  have hs2 : firstSuccess lf TAKE_TRY = r2 := by rw [← traceFirst_snd, h2]
  refine ⟨?_, ?_, ?_, ?_, ?_⟩
  · cases r1 with
    | some p => simp [resolveTrace, get_payload_static_or_live, h1, hs1]
    | none =>
      cases r2 with
      | some q => simp [resolveTrace, get_payload_static_or_live, h1, h2, hs1, hs2]
      | none => simp [resolveTrace, get_payload_static_or_live, h1, h2, hs1, hs2]
  · cases r1 with
    | some p =>
      obtain ⟨rest1, hrest1⟩ := traceFirst_prefix sf TAKE_TRY
      rw [h1] at hrest1
      refine ⟨rest1.map Attempt.statAt ++ TAKE_TRY.map Attempt.liveAt, ?_⟩
      simp only [resolveTrace, h1]
      rw [fullAttemptOrder, ← List.append_assoc, ← List.map_append, hrest1]
    | none =>
      have hts : ts = TAKE_TRY := by
        have := traceFirst_none sf TAKE_TRY (by rw [h1])
        rw [h1] at this
        exact this
      obtain ⟨rest2, hrest2⟩ := traceFirst_prefix lf TAKE_TRY
      rw [h2] at hrest2
      cases r2 with
      | some q =>
        refine ⟨rest2.map Attempt.liveAt, ?_⟩
        simp only [resolveTrace, h1, h2]
        rw [fullAttemptOrder, hts, List.append_assoc, ← List.map_append, hrest2]
      | none =>
        refine ⟨rest2.map Attempt.liveAt, ?_⟩
        simp only [resolveTrace, h1, h2]
        rw [fullAttemptOrder, hts, List.append_assoc, ← List.map_append, hrest2]
  · intro p hp
    cases r1 with
    | some q =>
      simp only [resolveTrace, h1] at hp ⊢
      cases hp
      obtain ⟨pre, t, hpre, hft, hall⟩ := traceFirst_success sf TAKE_TRY p (by rw [h1])
      rw [h1] at hpre
      simp only [] at hpre
      refine ⟨pre.map Attempt.statAt, Attempt.statAt t, by simp [hpre], hft, ?_⟩
      intro b hb
      obtain ⟨u, hu, rfl⟩ := List.mem_map.mp hb
      exact hall u hu
    | none =>
      have hsfnone : ∀ t ∈ TAKE_TRY, sf t = none :=
        traceFirst_none_all sf TAKE_TRY (by rw [h1])
      have hts : ts = TAKE_TRY := by
        have := traceFirst_none sf TAKE_TRY (by rw [h1])
        rw [h1] at this
        exact this
      cases r2 with
      | some q =>
        simp only [resolveTrace, h1, h2] at hp ⊢
        cases hp
        obtain ⟨pre, t, hpre, hft, hall⟩ := traceFirst_success lf TAKE_TRY p (by rw [h2])
        rw [h2] at hpre
        simp only [] at hpre
        refine ⟨ts.map Attempt.statAt ++ pre.map Attempt.liveAt, Attempt.liveAt t,
          by simp [hpre], hft, ?_⟩
        intro b hb
        rcases List.mem_append.mp hb with hb1 | hb1
        · obtain ⟨u, hu, rfl⟩ := List.mem_map.mp hb1
          exact hsfnone u (by rw [← hts]; exact hu)
        · obtain ⟨u, hu, rfl⟩ := List.mem_map.mp hb1
          exact hall u hu
      | none =>
        simp only [resolveTrace, h1, h2] at hp
        exact absurd hp (by simp)
  · intro p hp
    have h200 : traceFirst sf TAKE_TRY = ([200], some p) := by
      simp [TAKE_TRY, traceFirst, hp]
    rw [h200] at h1
    cases h1
    simp [resolveTrace, h200]
  · intro hsf hlf
    rw [get_payload_static_or_live, firstSuccess_none sf TAKE_TRY hsf,
      firstSuccess_none lf TAKE_TRY hlf]

theorem c8_fallback_witness :
    (resolveTrace (fun t => if t = 50 then some (.pstr "S".data) else none)
        (fun _ => some (.pstr "L".data))).1 ++
        [Attempt.statAt 20, Attempt.statAt 10, Attempt.liveAt 200, Attempt.liveAt 100,
          Attempt.liveAt 50, Attempt.liveAt 20, Attempt.liveAt 10] = fullAttemptOrder ∧
    resolveTrace (fun t => if t = 200 then some (.pstr "S".data) else none)
        (fun _ => none) = ([Attempt.statAt 200], .ok (.pstr "S".data)) ∧
    get_payload_static_or_live (fun _ => none) (fun _ => none) =
      .error "No payload available".data := by
  refine ⟨?_, ?_, ?_⟩
  · rfl
  · exact (c8_fallback (fun t => if t = 200 then some (.pstr "S".data) else none)
      (fun _ => none)).2.2.2.1 (.pstr "S".data) rfl
  · exact (c8_fallback (fun _ => none) (fun _ => none)).2.2.2.2
      (fun t _ => rfl) (fun t _ => rfl)

/-!  Normalizer safety lemmas. -/

theorem isPStr_exists {v : PyVal} (h : isPStr v = true) : ∃ s, v = .pstr s := by
  cases v with
  | pstr s => exact ⟨s, rfl⟩
  | pnone => simp [isPStr] at h
  | pbool b => simp [isPStr] at h
  | pint n => simp [isPStr] at h
  | plist l => simp [isPStr] at h
  | pdict d => simp [isPStr] at h

theorem extractSides_ok :
    ∀ comps : List PyVal, comps.all wellComp = true →
      ∀ h a, ∃ res, extractSides comps h a = .ok res := by
  intro comps
  induction comps with
  | nil => intro _ h a; exact ⟨(h, a), rfl⟩
  | cons c rest ih =>
    intro hall h a
    rw [List.all_cons, Bool.and_eq_true] at hall
    obtain ⟨hc, hrest⟩ := hall
    cases c with
    | pdict dc =>
      simp only [wellComp] at hc
      obtain ⟨s, hs⟩ := isPStr_exists hc
      have horg : orgField dc = .ok (pyStrip s) := by
        unfold orgField
        rw [hs]
      cases hH : pyEqStr (dictGet dc "competitorType".data .pnone) "H".data with
      | true =>
        obtain ⟨res, hres⟩ := ih hrest (some (dictGet dc "competitiorName".data (.pstr []), pyStrip s)) a
        exact ⟨res, by simp [extractSides, hH, horg, hres]⟩
      | false =>
        cases hA : pyEqStr (dictGet dc "competitorType".data .pnone) "A".data with
        | true =>
          obtain ⟨res, hres⟩ := ih hrest h (some (dictGet dc "competitiorName".data (.pstr []), pyStrip s))
          exact ⟨res, by simp [extractSides, hH, hA, horg, hres]⟩
        | false =>
          obtain ⟨res, hres⟩ := ih hrest h a
          exact ⟨res, by simp [extractSides, hH, hA, hres]⟩
    | pnone => simp [wellComp] at hc
    | pbool b => simp [wellComp] at hc
    | pint n => simp [wellComp] at hc
    | pstr s => simp [wellComp] at hc
    | plist l => simp [wellComp] at hc

theorem parseEntry_ok :
    ∀ it : PyVal, wellShapedEntry it = true → ∃ rec, parseEntry it = .ok rec := by
  intro it hws
  cases it with
  | pdict dIt =>
    simp only [wellShapedEntry] at hws
    rcases hmc : pyOr (dictGet dIt "match_card".data .pnone) (.pdict []) with
      _ | b | n | s | l | mc
    · rw [hmc] at hws; simp [wellShapedCard] at hws
    · rw [hmc] at hws; simp [wellShapedCard] at hws
    · rw [hmc] at hws; simp [wellShapedCard] at hws
    · rw [hmc] at hws; simp [wellShapedCard] at hws
    · rw [hmc] at hws; simp [wellShapedCard] at hws
    rw [hmc] at hws
    simp only [wellShapedCard, Bool.and_eq_true] at hws
    obtain ⟨⟨hdescb, hcompsb⟩, hovb⟩ := hws
    obtain ⟨desc, hdesc⟩ := isPStr_exists hdescb
    obtain ⟨cs, hcomps, hcsall⟩ :
        ∃ cs, pyOr (dictGet mc "competitiors".data .pnone) (.plist []) = .plist cs ∧
          cs.all wellComp = true := by
      rcases hv : pyOr (dictGet mc "competitiors".data .pnone) (.plist []) with
        _ | b | n | s2 | l2 | d2 <;> rw [hv] at hcompsb
      · simp [compsOk] at hcompsb
      · simp [compsOk] at hcompsb
      · simp [compsOk] at hcompsb
      · simp [compsOk] at hcompsb
      · exact ⟨l2, rfl, by simpa [compsOk] using hcompsb⟩
      · simp [compsOk] at hcompsb
    obtain ⟨⟨hside, aside⟩, hse⟩ := extractSides_ok cs hcsall .none .none
    rcases hov : pyOr (dictGet mc "resultOverallScores".data .pnone)
        (pyOr (dictGet mc "overallScores".data .pnone) (.pstr [])) with
      _ | b | n | s | l | d
    · rcases hpe : parseEntry (.pdict dIt) with e | rec
      · simp [parseEntry, hmc, hdesc, hcomps, pyIter, hse, hov, pyTruthy] at hpe
      · exact ⟨rec, rfl⟩
    · rw [hov] at hovb
      have hb : b = false := by simpa [strOrFalsy, pyTruthy] using hovb
      subst hb
      rcases hpe : parseEntry (.pdict dIt) with e | rec
      · simp [parseEntry, hmc, hdesc, hcomps, pyIter, hse, hov, pyTruthy] at hpe
      · exact ⟨rec, rfl⟩
    · rw [hov] at hovb
      have hn : n = 0 := by simpa [strOrFalsy, pyTruthy] using hovb
      subst hn
      rcases hpe : parseEntry (.pdict dIt) with e | rec
      · simp [parseEntry, hmc, hdesc, hcomps, pyIter, hse, hov, pyTruthy] at hpe
      · exact ⟨rec, rfl⟩
    · rcases hpe : parseEntry (.pdict dIt) with e | rec
      · simp [parseEntry, hmc, hdesc, hcomps, pyIter, hse, hov] at hpe
      · exact ⟨rec, rfl⟩
    · rw [hov] at hovb
      have hl : l = [] := by simpa [strOrFalsy, pyTruthy] using hovb
      subst hl
      rcases hpe : parseEntry (.pdict dIt) with e | rec
      · simp [parseEntry, hmc, hdesc, hcomps, pyIter, hse, hov, pyTruthy] at hpe
      · exact ⟨rec, rfl⟩
    · rw [hov] at hovb
      have hd : d = [] := by simpa [strOrFalsy, pyTruthy] using hovb
      subst hd
      rcases hpe : parseEntry (.pdict dIt) with e | rec
      · simp [parseEntry, hmc, hdesc, hcomps, pyIter, hse, hov, pyTruthy] at hpe
      · exact ⟨rec, rfl⟩
  | pnone => simp [wellShapedEntry] at hws
  | pbool b => simp [wellShapedEntry] at hws
  | pint n => simp [wellShapedEntry] at hws
  | pstr s => simp [wellShapedEntry] at hws
  | plist l => simp [wellShapedEntry] at hws

theorem parseItems_ok :
    ∀ items : List PyVal, items.all wellShapedEntry = true →
      ∃ rs, parseItems items = .ok rs ∧ rs.length = items.length := by
  intro items
  induction items with
  | nil => intro _; exact ⟨[], rfl, rfl⟩
  | cons it rest ih =>
    intro hall
    rw [List.all_cons, Bool.and_eq_true] at hall
    obtain ⟨r, hr⟩ := parseEntry_ok it hall.1
    obtain ⟨rs, hrs, hlen⟩ := ih hall.2
    exact ⟨r :: rs, by simp [parseItems, hr, hrs], by simp [hlen]⟩

/-- Claim C9, corrected.  The normalizer returns one record per entry
without raising on every payload whose match list holds only entries of the
expected shape, missing or falsy fields included (they degrade to
defaults); a payload that is neither a list nor a dict normalizes to the
empty result; but an entry of the wrong shape, such as a number in the
match list, raises instead of degrading, so the original claim fails for
arbitrary entries (see the counterexample). -/
theorem c9_normalizer_safety :
    (∀ payload : PyVal, isListV payload = false → isDictV payload = false →
      parse_matches payload = .ok []) ∧
    (∀ l : List PyVal, l.all wellShapedEntry = true →
      ∃ rs, parse_matches (.plist l) = .ok rs ∧ rs.length = l.length) ∧
    (∀ (d : List (List Char × PyVal)) (l : List PyVal),
      dictGet d "matches".data (.plist []) = .plist l →
      l.all wellShapedEntry = true →
      ∃ rs, parse_matches (.pdict d) = .ok rs ∧ rs.length = l.length) := by
  refine ⟨?_, ?_, ?_⟩
  · intro payload h1 h2
    cases payload with
    | plist l => simp [isListV] at h1
    | pdict d => simp [isDictV] at h2
    | pnone => rfl
    | pbool b => rfl
    | pint n => rfl
    | pstr s => rfl
  · intro l hall
    obtain ⟨rs, hrs, hlen⟩ := parseItems_ok l hall
    exact ⟨rs, by simp [parse_matches, pyIter, hrs], hlen⟩
  · intro d l hd hall
    obtain ⟨rs, hrs, hlen⟩ := parseItems_ok l hall
    exact ⟨rs, by simp [parse_matches, hd, pyIter, hrs], hlen⟩

theorem c9_normalizer_safety_witness :
    parse_matches (.pint 7) = .ok [] ∧
    (∃ rs, parse_matches (.plist [.pdict []]) = .ok rs ∧ rs.length = 1) ∧
    (∃ rs, parse_matches
        (.pdict [("matches".data, .plist [.pdict [("match_card".data, .pnone)]])]) = .ok rs ∧
      rs.length = 1) :=
  ⟨c9_normalizer_safety.1 (.pint 7) rfl rfl,
   c9_normalizer_safety.2.1 [.pdict []] rfl,
   c9_normalizer_safety.2.2 [("matches".data, .plist [.pdict [("match_card".data, .pnone)]])]
     [.pdict [("match_card".data, .pnone)]] rfl rfl⟩

/-- Claim C9 counterexample: a match list containing a non-dict entry makes
the normalizer raise (AttributeError at the entry's attribute lookup)
instead of degrading the entry to defaults, refuting the claim for
arbitrary entries. -/
theorem c9_raise_counterexample :
    parse_matches (.plist [.pint 42]) = .error .attributeError := rfl

/-- Claim C10: an entry whose overall score parses with the first number
strictly greater while no competitor is tagged as the home side (or the
second strictly greater with no away side) normalizes without error to a
record whose winner field is the empty string, exactly the value a tie
produces, because the absent side's name defaults to empty. -/
theorem c10_absent_side_winner :
    ∀ (dIt mc : List (List Char × PyVal)) (desc ov : List Char) (comps : List PyVal)
      (hside aside : Option (PyVal × List Char)) (d1 d2 : List Char),
      pyOr (dictGet dIt "match_card".data .pnone) (.pdict []) = .pdict mc →
      pyOr (dictGet mc "subEventDescription".data .pnone) (.pstr []) = .pstr desc →
      pyOr (dictGet mc "competitiors".data .pnone) (.plist []) = .plist comps →
      extractSides comps .none .none = .ok (hside, aside) →
      pyOr (dictGet mc "resultOverallScores".data .pnone)
        (pyOr (dictGet mc "overallScores".data .pnone) (.pstr [])) = .pstr ov →
      parseOverall ov = some (d1, d2) →
      ((hside = .none → natOfDigits d1 > natOfDigits d2 →
        ∃ rec, parseEntry (.pdict dIt) = .ok rec ∧ rec.Winner = .pstr []) ∧
       (aside = .none → natOfDigits d2 > natOfDigits d1 →
        ∃ rec, parseEntry (.pdict dIt) = .ok rec ∧ rec.Winner = .pstr []) ∧
       (natOfDigits d1 = natOfDigits d2 →
        ∃ rec, parseEntry (.pdict dIt) = .ok rec ∧ rec.Winner = .pstr [])) := by
  intro dIt mc desc ov comps hside aside d1 d2 hmc hdesc hcomps hse hov hparse
  have heval : parseEntry (.pdict dIt) = .ok
      ⟨pyOr (dictGet mc "subEventName".data .pnone)
          (pyOr (dictGet dIt "subEventType".data .pnone) (.pstr [])),
        pretty_round desc,
        (hside.map Prod.fst).getD (.pstr []), (hside.map Prod.snd).getD [],
        (aside.map Prod.fst).getD (.pstr []), (aside.map Prod.snd).getD [],
        .pstr ov,
        pyOr (dictGet mc "resultsGameScores".data .pnone)
          (pyOr (dictGet mc "gameScores".data .pnone) (.pstr [])),
        winnerOf ov ((hside.map Prod.fst).getD (.pstr []))
          ((aside.map Prod.fst).getD (.pstr []))⟩ := by
    simp [parseEntry, hmc, hdesc, hcomps, pyIter, hse, hov]
  refine ⟨?_, ?_, ?_⟩
  · intro h0 hgt
    subst h0
    refine ⟨_, heval, ?_⟩
    simp only [Option.map_none', Option.getD_none]
    unfold winnerOf
    rw [hparse]
    dsimp only
    rw [if_pos hgt]
  · intro h0 hgt
    subst h0
    refine ⟨_, heval, ?_⟩
    simp only [Option.map_none', Option.getD_none]
    unfold winnerOf
    rw [hparse]
    dsimp only
    rw [if_neg (by omega), if_pos hgt]
  · intro heqn
    refine ⟨_, heval, ?_⟩
    unfold winnerOf
    rw [hparse]
    dsimp only
    rw [if_neg (by omega), if_neg (by omega)]

theorem c10_absent_side_winner_witness :
    ∃ rec,
      parseEntry (.pdict [("match_card".data, .pdict
        [("competitiors".data, .plist [.pdict
            [("competitorType".data, .pstr "A".data),
             ("competitiorName".data, .pstr "Y".data)]]),
         ("resultOverallScores".data, .pstr "3-1".data)])]) = .ok rec ∧
      rec.Winner = .pstr [] :=
  ((c10_absent_side_winner
      [("match_card".data, .pdict
        [("competitiors".data, .plist [.pdict
            [("competitorType".data, .pstr "A".data),
             ("competitiorName".data, .pstr "Y".data)]]),
         ("resultOverallScores".data, .pstr "3-1".data)])]
      [("competitiors".data, .plist [.pdict
          [("competitorType".data, .pstr "A".data),
           ("competitiorName".data, .pstr "Y".data)]]),
       ("resultOverallScores".data, .pstr "3-1".data)]
      [] "3-1".data
      [.pdict [("competitorType".data, .pstr "A".data),
        ("competitiorName".data, .pstr "Y".data)]]
      .none (some (.pstr "Y".data, []))
      "3".data "1".data
      rfl rfl rfl rfl rfl (by decide)).1 rfl (by decide))

/-!  Round-classifier lemmas. -/

theorem tryDigits_post {k : Nat} {l g : List Char} (hk : 1 ≤ k) (h : tryDigits k l = some g) :
    g ≠ [] ∧ ∀ c ∈ g, isDigitChar c = true := by
  unfold tryDigits at h
  dsimp only at h
  split at h
  · cases h
    next hcond =>
      obtain ⟨hlen, hall, _⟩ := hcond
      refine ⟨?_, ?_⟩
      · intro hnil
        rw [hnil] at hlen
        simp at hlen
        omega
      · intro c hc
        exact List.all_eq_true.mp hall c hc
  · exact absurd h (by simp)

theorem matchDigits13_post {l g : List Char} (h : matchDigits13 l = some g) :
    g ≠ [] ∧ ∀ c ∈ g, isDigitChar c = true := by
  unfold matchDigits13 at h
  split at h
  next g3 hg3 =>
    cases h
    exact tryDigits_post (by omega) hg3
  next hg3 =>
    split at h
    next g2 hg2 =>
      cases h
      exact tryDigits_post (by omega) hg2
    next hg2 => exact tryDigits_post (by omega) h

theorem matchRoundOf_post :
    ∀ (prevW : Bool) (l g : List Char), matchRoundOfAt prevW l = some g →
      g ≠ [] ∧ ∀ c ∈ g, isDigitChar c = true := by
  intro prevW l g h
  unfold matchRoundOfAt at h
  split at h
  · exact absurd h (by simp)
  · split at h
    · exact absurd h (by simp)
    · split at h
      · exact absurd h (by simp)
      · split at h
        · exact absurd h (by simp)
        · split at h
          · exact absurd h (by simp)
          · exact matchDigits13_post h

theorem matchRToken_post :
    ∀ (prevW : Bool) (l g : List Char), matchRTokenAt prevW l = some g →
      g ≠ [] ∧ ∀ c ∈ g, isDigitChar c = true := by
  intro prevW l g h
  unfold matchRTokenAt at h
  split at h
  · exact absurd h (by simp)
  · split at h
    · exact absurd h (by simp)
    · split at h
      · exact matchDigits13_post h
      · exact absurd h (by simp)

theorem matchQSF_post :
    ∀ (prevW : Bool) (l g : List Char), matchQSFAt prevW l = some g →
      g = "QF".data ∨ g = "SF".data ∨ g = "F".data := by
  intro prevW l g h
  unfold matchQSFAt at h
  split at h
  · exact absurd h (by simp)
  · split at h
    · split at h
      · cases h; exact Or.inl rfl
      · exact absurd h (by simp)
    · split at h
      · split at h
        · cases h; exact Or.inr (Or.inl rfl)
        · exact absurd h (by simp)
      · split at h
        · split at h
          · cases h; exact Or.inr (Or.inr rfl)
          · exact absurd h (by simp)
        · exact absurd h (by simp)

theorem reSearchGroupAux_post {mh : Bool → List Char → Option (List Char)}
    {Q : List Char → Prop} (hmh : ∀ prevW l g, mh prevW l = some g → Q g) :
    ∀ (l : List Char) (prevW : Bool) (g : List Char),
      reSearchGroupAux mh prevW l = some g → Q g := by
  intro l
  induction l with
  | nil =>
    intro prevW g h
    exact hmh prevW [] g h
  | cons c rest ih =>
    intro prevW g h
    rcases hm : mh prevW (c :: rest) with _ | g2
    · rw [reSearchGroupAux, hm] at h
      exact ih (isWordChar c) g h
    · rw [reSearchGroupAux, hm] at h
      cases h
      exact hmh _ _ _ hm

/-- Claim C4, corrected.  Every classifier output is one of the long labels
Semifinal, Quarterfinal, Final, the letter R followed by one or more
digits, or the empty string (the code maps the short tokens to the long
words, not to QF/SF/F); the bare description SF classifies to Semifinal,
and semifinal-, quarterfinal- and final-phrase descriptions classify to
Semifinal, Quarterfinal and Final respectively. -/
theorem c4_round_labels :
    (∀ desc, pretty_round desc = "Semifinal".data ∨
      pretty_round desc = "Quarterfinal".data ∨
      pretty_round desc = "Final".data ∨
      pretty_round desc = [] ∨
      ∃ g, pretty_round desc = 'R' :: g ∧ g ≠ [] ∧ ∀ c ∈ g, isDigitChar c = true) ∧
    pretty_round "SF".data = "Semifinal".data ∧
    pretty_round "Mens Doubles Semifinal".data = "Semifinal".data ∧
    pretty_round "Round of 16 Quarterfinal".data = "Quarterfinal".data ∧
    pretty_round "Grand Final".data = "Final".data := by
  refine ⟨?_, by decide, by decide, by decide, by decide⟩
  intro desc
  unfold pretty_round
  by_cases h0 : desc = []
  · simp [h0]
  · rw [if_neg h0]
    dsimp only
    by_cases h1 : reSearch matchSemiAt ((pyStrip desc).map toLowerChar) = true
    · simp [h1]
    · rw [if_neg h1]
      by_cases h2 : reSearch matchQuarterAt ((pyStrip desc).map toLowerChar) = true
      · simp [h2]
      · rw [if_neg h2]
        by_cases h3 : reSearch matchFinalAt ((pyStrip desc).map toLowerChar) = true
        · simp [h3]
        · rw [if_neg h3]
          rcases h4 : reSearchGroup matchRoundOfAt ((pyStrip desc).map toLowerChar) with _ | g
          · rcases h5 : reSearchGroup matchRTokenAt (pyStrip desc) with _ | g2
            · rcases h6 : reSearchGroup matchQSFAt ((pyStrip desc).map toUpperChar) with _ | g3
              · simp
              · have hq := reSearchGroupAux_post matchQSF_post _ _ _ h6
                rcases hq with rfl | rfl | rfl
                · right; left; decide
                · left; decide
                · right; right; left; decide
            · have hd := reSearchGroupAux_post matchRToken_post _ _ _ h5
              right; right; right; right
              exact ⟨g2, rfl, hd⟩
          · have hd := reSearchGroupAux_post matchRoundOf_post _ _ _ h4
            right; right; right; right
            exact ⟨g, rfl, hd⟩

theorem c4_round_labels_witness :
    pretty_round "R 64".data = "Semifinal".data ∨
    pretty_round "R 64".data = "Quarterfinal".data ∨
    pretty_round "R 64".data = "Final".data ∨
    pretty_round "R 64".data = [] ∨
    ∃ g, pretty_round "R 64".data = 'R' :: g ∧ g ≠ [] ∧ ∀ c ∈ g, isDigitChar c = true :=
  c4_round_labels.1 "R 64".data

/-- Claim C4 counterexample: the bare token SF classifies to the long word
Semifinal, which is none of the claimed short labels QF, SF, F, R-digits or
empty. -/
theorem c4_short_label_counterexample :
    pretty_round "SF".data = "Semifinal".data ∧
    "Semifinal".data ≠ "SF".data ∧
    "Semifinal".data ≠ "QF".data ∧
    "Semifinal".data ≠ "F".data ∧
    "Semifinal".data ≠ ([] : List Char) ∧
    ("Semifinal".data).head? ≠ some 'R' := by
  refine ⟨by decide, by decide, by decide, by decide, by decide, by decide⟩

/-- Claim C5, corrected.  The rules are tested in the order semifinal,
quarterfinal, final, round-of-N, R-token, bare token, first match deciding:
a description matching the quarterfinal phrase classifies to Quarterfinal
provided the earlier semifinal rule does not also match (if it does, the
semifinal rule wins: see the counterexample), and in every case a
quarterfinal-phrase description is never classified as R-digits; a
description with only a round-of-N pattern classifies to R-N. -/
theorem c5_precedence :
    (∀ desc, reSearch matchQuarterAt ((pyStrip desc).map toLowerChar) = true →
      reSearch matchSemiAt ((pyStrip desc).map toLowerChar) = false →
      pretty_round desc = "Quarterfinal".data) ∧
    (∀ desc g, reSearch matchQuarterAt ((pyStrip desc).map toLowerChar) = true →
      pretty_round desc ≠ 'R' :: g) ∧
    pretty_round "Round of 32".data = "R32".data := by
  have hnonempty : ∀ desc, reSearch matchQuarterAt ((pyStrip desc).map toLowerChar) = true →
      desc ≠ [] := by
    intro desc hq h0
    rw [h0] at hq
    revert hq
    decide
  refine ⟨?_, ?_, by decide⟩
  · intro desc hq hs
    unfold pretty_round
    rw [if_neg (hnonempty desc hq)]
    dsimp only
    rw [hs, if_neg (by simp), hq, if_pos rfl]
  · intro desc g hq
    unfold pretty_round
    rw [if_neg (hnonempty desc hq)]
    dsimp only
    by_cases hs : reSearch matchSemiAt ((pyStrip desc).map toLowerChar) = true
    · rw [hs, if_pos rfl]
      exact fun hcon => absurd (congrArg List.head? hcon)
        (show ¬(List.head? "Semifinal".data = some 'R') by decide)
    · rw [if_neg hs, hq, if_pos rfl]
      exact fun hcon => absurd (congrArg List.head? hcon)
        (show ¬(List.head? "Quarterfinal".data = some 'R') by decide)

theorem c5_precedence_witness :
    pretty_round "quarterfinal".data = "Quarterfinal".data ∧
    pretty_round "Round of 16 Quarterfinal".data ≠ 'R' :: "16".data :=
  ⟨c5_precedence.1 "quarterfinal".data (by decide) (by decide),
   c5_precedence.2.1 "Round of 16 Quarterfinal".data "16".data (by decide)⟩

/-- Claim C5 counterexample: a description containing a quarterfinal phrase
and a round-of-N pattern, but also a semifinal phrase, is decided by the
earlier semifinal rule, so the quarterfinal rule does not win on every
description containing a quarterfinal phrase and a round-of-N pattern. -/
theorem c5_precedence_counterexample :
    reSearch matchQuarterAt
      ((pyStrip "semifinal quarterfinal round of 9".data).map toLowerChar) = true ∧
    reSearchGroup matchRoundOfAt
      ((pyStrip "semifinal quarterfinal round of 9".data).map toLowerChar) = some "9".data ∧
    pretty_round "semifinal quarterfinal round of 9".data = "Semifinal".data ∧
    "Semifinal".data ≠ "Quarterfinal".data := by
  refine ⟨by decide, by decide, by decide, by decide⟩

/-!  Nation-token split lemmas.  The fold behind reSplit is characterised
step by step, then token membership is shown to coincide with the
delimiter-bounded decomposition predicate. -/

theorem reSplitStep_delim {c : Char} (hc : isDelimChar c = true)
    (acc : List (List Char) × Bool) :
    reSplitStep c acc = (if acc.2 then acc.1 else [] :: acc.1, true) := by
  unfold reSplitStep
  rw [if_pos hc]

theorem reSplitStep_nondelim {c : Char} (hc : isDelimChar c = false)
    (acc : List (List Char) × Bool) :
    reSplitStep c acc =
      (match acc.1 with
       | t :: ts => (c :: t) :: ts
       | [] => [[c]],
       false) := by
  unfold reSplitStep
  rw [if_neg (by simp [hc])]

theorem reSplit_nonNil : ∀ s : List Char, reSplit s ≠ [] := by
  intro s
  induction s with
  | nil => simp [reSplit]
  | cons c rest ih =>
    show (reSplitStep c (List.foldr reSplitStep ([[]], false) rest)).1 ≠ []
    by_cases hc : isDelimChar c = true
    · rw [reSplitStep_delim hc]
      dsimp only
      by_cases hf : (List.foldr reSplitStep ([[]], false) rest).2 = true
      · rw [if_pos hf]
        exact ih
      · rw [if_neg hf]
        simp
    · rw [reSplitStep_nondelim (Bool.eq_false_iff.mpr hc)]
      dsimp only
      rcases hr : (List.foldr reSplitStep ([[]], false) rest).1 with _ | ⟨t, ts⟩
      · simp
      · simp

theorem reSplitFlag_eq :
    ∀ s : List Char, reSplitFlag s =
      match s with
      | [] => false
      | c :: _ => isDelimChar c := by
  intro s
  cases s with
  | nil => rfl
  | cons c rest =>
    show (reSplitStep c (List.foldr reSplitStep ([[]], false) rest)).2 = isDelimChar c
    cases hc : isDelimChar c with
    | true => rw [reSplitStep_delim hc]
    | false => rw [reSplitStep_nondelim hc]

theorem reSplit_cons_delim_true {c : Char} {s : List Char}
    (hc : isDelimChar c = true) (hf : reSplitFlag s = true) :
    reSplit (c :: s) = reSplit s := by
  show (reSplitStep c (List.foldr reSplitStep ([[]], false) s)).1 = reSplit s
  rw [reSplitStep_delim hc]
  rw [reSplitFlag] at hf
  dsimp only
  rw [if_pos hf]
  rfl

theorem reSplit_cons_delim_newSeg {c : Char} {s : List Char}
    (hc : isDelimChar c = true) (hf : reSplitFlag s = false) :
    reSplit (c :: s) = [] :: reSplit s := by
  show (reSplitStep c (List.foldr reSplitStep ([[]], false) s)).1 = [] :: reSplit s
  rw [reSplitStep_delim hc]
  rw [reSplitFlag] at hf
  dsimp only
  rw [hf]
  rfl

theorem reSplit_cons_nondelim {c : Char} {s : List Char} (hc : isDelimChar c = false) :
    ∀ t ts, reSplit s = t :: ts → reSplit (c :: s) = (c :: t) :: ts := by
  intro t ts h
  show (reSplitStep c (List.foldr reSplitStep ([[]], false) s)).1 = (c :: t) :: ts
  rw [reSplitStep_nondelim hc]
  rw [reSplit] at h
  dsimp only
  rw [h]

theorem reSplit_head :
    ∀ s : List Char, (reSplit s).head? = some (s.takeWhile (fun c => !isDelimChar c)) := by
  intro s
  induction s with
  | nil => rfl
  | cons c rest ih =>
    cases hc : isDelimChar c with
    | true =>
      have htake : (c :: rest).takeWhile (fun c => !isDelimChar c) = [] := by
        simp [List.takeWhile_cons, hc]
      rw [htake]
      cases hf : reSplitFlag rest with
      | true =>
        rw [reSplit_cons_delim_true hc hf, ih]
        rw [reSplitFlag_eq] at hf
        cases rest with
        | nil => simp at hf
        | cons c2 r2 =>
          simp only at hf
          simp [List.takeWhile_cons, hf]
      | false =>
        rw [reSplit_cons_delim_newSeg hc hf]
        rfl
    | false =>
      obtain ⟨t, ts, hts⟩ : ∃ t ts, reSplit rest = t :: ts := by
        rcases hr : reSplit rest with _ | ⟨t, ts⟩
        · exact absurd hr (reSplit_nonNil rest)
        · exact ⟨t, ts, rfl⟩
      rw [reSplit_cons_nondelim hc t ts hts]
      rw [hts] at ih
      simp only [List.head?_cons, Option.some.injEq] at ih
      simp [List.takeWhile_cons, hc, ih]

theorem dropWhile_head_cases {α : Type} (p : α → Bool) :
    ∀ l : List α, l.dropWhile p = [] ∨ ∃ c r, l.dropWhile p = c :: r ∧ p c = false := by
  intro l
  induction l with
  | nil => exact Or.inl rfl
  | cons c rest ih =>
    by_cases hc : p c = true
    · rw [List.dropWhile_cons_of_pos hc]
      exact ih
    · rw [List.dropWhile_cons_of_neg (by simpa using hc)]
      exact Or.inr ⟨c, rest, rfl, Bool.eq_false_iff.mpr hc⟩

/-- A token decomposition at the very start of s is exactly the statement
that t is the leading maximal delimiter-free run of s. -/
theorem token_head_iff {s t : List Char} (ht : t ≠ [])
    (hall : ∀ x ∈ t, isDelimChar x = false) :
    (∃ post, s = t ++ post ∧ TokenPost post) ↔
      t = s.takeWhile (fun c => !isDelimChar c) := by
  constructor
  · rintro ⟨post, rfl, hp⟩
    rw [takeWhile_block (p := fun c => !isDelimChar c) (fun x hx => by simp [hall x hx]) ?_]
    rcases hp with rfl | ⟨d, post0, rfl, hd⟩
    · exact Or.inl rfl
    · exact Or.inr ⟨d, post0, rfl, by simp [hd]⟩
  · intro hteq
    refine ⟨s.dropWhile (fun c => !isDelimChar c), ?_, ?_⟩
    · rw [hteq, List.takeWhile_append_dropWhile]
    · rcases dropWhile_head_cases (fun c => !isDelimChar c) s with h | ⟨d, r, hdr, hd⟩
      · exact Or.inl h
      · exact Or.inr ⟨d, r, hdr, by simpa using hd⟩

/-- Membership of a token in the tail segments coincides with a
decomposition after some delimiter. -/
theorem reSplit_tail_mem {t : List Char} (ht : t ≠ [])
    (hall : ∀ x ∈ t, isDelimChar x = false) :
    ∀ s : List Char, t ∈ (reSplit s).tail ↔ TokenDecompNE s t := by
  intro s
  induction s with
  | nil =>
    simp only [reSplit, List.foldr_nil, List.tail]
    constructor
    · intro h; simp at h
    · rintro ⟨pre0, d, post, heq, _, _⟩
      exact absurd heq (by simp)
  | cons c s ih =>
    have memP : t ∈ reSplit s ↔ TokenDecomp s t := by
      obtain ⟨t0, ts, hts⟩ : ∃ t0 ts, reSplit s = t0 :: ts := by
        rcases hr : reSplit s with _ | ⟨t0, ts⟩
        · exact absurd hr (reSplit_nonNil s)
        · exact ⟨t0, ts, rfl⟩
      have hhead : t0 = s.takeWhile (fun c => !isDelimChar c) := by
        have := reSplit_head s
        rw [hts] at this
        simpa using this
      have htl : t ∈ ts ↔ TokenDecompNE s t := by
        rw [← ih, hts, List.tail_cons]
      rw [hts, TokenDecomp, List.mem_cons, token_head_iff ht hall, ← hhead, htl]
    cases hc : isDelimChar c with
    | false =>
      obtain ⟨t0, ts, hts⟩ : ∃ t0 ts, reSplit s = t0 :: ts := by
        rcases hr : reSplit s with _ | ⟨t0, ts⟩
        · exact absurd hr (reSplit_nonNil s)
        · exact ⟨t0, ts, rfl⟩
      rw [reSplit_cons_nondelim hc t0 ts hts]
      have htail : t ∈ ((c :: t0) :: ts).tail ↔ t ∈ (reSplit s).tail := by
        rw [hts, List.tail_cons, List.tail_cons]
      rw [htail, ih]
      constructor
      · rintro ⟨pre0, d, post, heq, hd, hp⟩
        exact ⟨c :: pre0, d, post, by rw [List.cons_append, ← heq], hd, hp⟩
      · rintro ⟨pre0, d, post, heq, hd, hp⟩
        cases pre0 with
        | nil =>
          simp only [List.nil_append] at heq
          rw [List.cons.injEq] at heq
          rw [heq.1] at hc
          rw [hc] at hd
          exact absurd hd (by simp)
        | cons c0 pre1 =>
          rw [List.cons_append, List.cons.injEq] at heq
          exact ⟨pre1, d, post, heq.2, hd, hp⟩
    | true =>
      cases s with
      | nil =>
        rw [reSplit_cons_delim_newSeg hc (by rw [reSplitFlag_eq])]
        simp only [List.tail_cons]
        constructor
        · intro hmem
          have : t = [] := by
            simpa [reSplit] using hmem
          exact absurd this ht
        · rintro ⟨pre0, d, post, heq, hd, hp⟩
          have hlen := congrArg List.length heq
          simp only [List.length_cons, List.length_nil, List.length_append] at hlen
          have htl : 1 ≤ t.length := List.length_pos.mpr ht
          omega
      | cons c2 s2 =>
        cases hc2 : isDelimChar c2 with
        | true =>
          rw [reSplit_cons_delim_true hc (by rw [reSplitFlag_eq]; exact hc2)]
          rw [ih]
          constructor
          · rintro ⟨pre0, d, post, heq, hd, hp⟩
            exact ⟨c :: pre0, d, post, by rw [List.cons_append, ← heq], hd, hp⟩
          · rintro ⟨pre0, d, post, heq, hd, hp⟩
            cases pre0 with
            | nil =>
              simp only [List.nil_append] at heq
              rw [List.cons.injEq] at heq
              obtain ⟨th, tr, rfl⟩ : ∃ th tr, t = th :: tr := by
                cases t with
                | nil => exact absurd rfl ht
                | cons th tr => exact ⟨th, tr, rfl⟩
              rw [List.cons_append, List.cons.injEq] at heq
              have hth := hall th (by simp)
              rw [← heq.2.1] at hth
              rw [hth] at hc2
              simp at hc2
            | cons c0 pre1 =>
              rw [List.cons_append, List.cons.injEq] at heq
              exact ⟨pre1, d, post, heq.2, hd, hp⟩
        | false =>
          rw [reSplit_cons_delim_newSeg hc (by rw [reSplitFlag_eq]; exact hc2)]
          simp only [List.tail_cons]
          rw [memP]
          constructor
          · rintro (⟨post, hseq, hp⟩ | ⟨pre0, d, post, heq, hd, hp⟩)
            · exact ⟨[], c, post, by rw [hseq]; rfl, hc, hp⟩
            · exact ⟨c :: pre0, d, post, by rw [List.cons_append, ← heq], hd, hp⟩
          · rintro ⟨pre0, d, post, heq, hd, hp⟩
            cases pre0 with
            | nil =>
              simp only [List.nil_append] at heq
              rw [List.cons.injEq] at heq
              exact Or.inl ⟨post, heq.2, hp⟩
            | cons c0 pre1 =>
              rw [List.cons_append, List.cons.injEq] at heq
              exact Or.inr ⟨pre1, d, post, heq.2, hd, hp⟩

theorem mem_reSplit_iff {t : List Char} (ht : t ≠ [])
    (hall : ∀ x ∈ t, isDelimChar x = false) :
    ∀ s : List Char, t ∈ reSplit s ↔ TokenDecomp s t := by
  intro s
  obtain ⟨t0, ts, hts⟩ : ∃ t0 ts, reSplit s = t0 :: ts := by
    rcases hr : reSplit s with _ | ⟨t0, ts⟩
    · exact absurd hr (reSplit_nonNil s)
    · exact ⟨t0, ts, rfl⟩
  have hhead : t0 = s.takeWhile (fun c => !isDelimChar c) := by
    have := reSplit_head s
    rw [hts] at this
    simpa using this
  have htail := reSplit_tail_mem ht hall s
  rw [hts, List.tail_cons] at htail
  rw [hts, TokenDecomp, List.mem_cons, token_head_iff ht hall, ← hhead, htail]

theorem tokenDecomp_nil {t : List Char} (ht : t ≠ []) : ¬ TokenDecomp [] t := by
  rintro (⟨post, heq, _⟩ | ⟨pre0, d, post, heq, _, _⟩)
  · cases t with
    | nil => exact ht rfl
    | cons a b => exact absurd heq (by simp)
  · exact absurd heq (by simp)

/-- Claim C6: the nation filter succeeds exactly when IND occurs as a whole
delimiter-bounded token of the uppercased stripped field (delimiters being
slash, whitespace, comma and hyphen); IND/SGP matches while INDO does not,
even though IND is a substring of INDO. -/
theorem c6_token_match :
    (∀ org, has_ind org = true ↔ TokenDecomp ((pyStrip org).map toUpperChar) "IND".data) ∧
    has_ind "IND/SGP".data = true ∧
    has_ind "INDO".data = false ∧
    (∃ pre post, "INDO".data = pre ++ "IND".data ++ post) := by
  refine ⟨?_, by decide, by decide, ⟨[], "O".data, by decide⟩⟩
  intro org
  unfold has_ind
  by_cases h0 : org = []
  · rw [if_pos h0]
    subst h0
    rw [show ((pyStrip ([] : List Char)).map toUpperChar) = [] from by decide]
    constructor
    · intro h
      simp at h
    · intro h
      exact absurd h (tokenDecomp_nil (by decide))
  · rw [if_neg h0]
    rw [decide_eq_true_iff]
    exact mem_reSplit_iff (by decide) (by decide) _

theorem c6_token_match_witness :
    (has_ind " ind,SGP ".data = true ↔
      TokenDecomp ((pyStrip " ind,SGP ".data).map toUpperChar) "IND".data) ∧
    TokenDecomp ((pyStrip " ind,SGP ".data).map toUpperChar) "IND".data :=
  ⟨(c6_token_match.1 " ind,SGP ".data),
   (c6_token_match.1 " ind,SGP ".data).mp (by decide)⟩

/-- Claim C1, corrected.  For a match selected by the nation filter, the
formatter chooses the displayed scores by comparing the winner field with
the target-side participant, not by which side the participant is on: the
scores are flipped exactly in the lost-to branch, where the winner equals
the opponent; in the defeated branch (winner equals the target participant)
and the vs branch (winner equals neither) they are rendered unmodified,
whichever side the target participant plays on. -/
theorem c1_flip_on_loss :
    ∀ m : StrMatch,
      (has_ind m.Comp1_Nation = true ∨ has_ind m.Comp2_Nation = true) →
      ((m.Winner = compInd m →
        renderLine3 m =
          line3With (compInd m) ("defeated ".data ++ oppWith m ++ " by".data)
            m.Match_Score m.Games_Score) ∧
       (m.Winner ≠ compInd m → m.Winner = oppName m →
        renderLine3 m =
          line3With (compInd m) ("lost to ".data ++ oppWith m ++ " by".data)
            (flip_overall m.Match_Score) (flip_games m.Games_Score)) ∧
       (m.Winner ≠ compInd m → m.Winner ≠ oppName m →
        renderLine3 m =
          line3With (compInd m) ("vs ".data ++ oppWith m) m.Match_Score m.Games_Score)) := by
  intro m _
  refine ⟨?_, ?_, ?_⟩
  · intro hw
    unfold renderLine3
    rw [if_pos hw]
  · intro hw1 hw2
    unfold renderLine3
    rw [if_neg hw1, if_pos hw2]
  · intro hw1 hw2
    unfold renderLine3
    rw [if_neg hw1, if_neg hw2]

theorem c1_flip_on_loss_witness :
    renderLine3 ⟨"WS".data, "Final".data, "A".data, "IND".data, "B".data, "FRA".data,
        "1-3".data, "5-11,11-9,7-11,8-11".data, "B".data⟩ =
      line3With
        (compInd ⟨"WS".data, "Final".data, "A".data, "IND".data, "B".data, "FRA".data,
          "1-3".data, "5-11,11-9,7-11,8-11".data, "B".data⟩)
        ("lost to ".data ++
          oppWith ⟨"WS".data, "Final".data, "A".data, "IND".data, "B".data, "FRA".data,
            "1-3".data, "5-11,11-9,7-11,8-11".data, "B".data⟩ ++ " by".data)
        (flip_overall "1-3".data) (flip_games "5-11,11-9,7-11,8-11".data) :=
  (c1_flip_on_loss
    ⟨"WS".data, "Final".data, "A".data, "IND".data, "B".data, "FRA".data,
      "1-3".data, "5-11,11-9,7-11,8-11".data, "B".data⟩
    (Or.inl (by decide))).2.1 (by decide) (by decide)

/-- Claim C1 counterexample: a match whose target-nation participant is the
away side and wins is rendered with the raw home-perspective scores, not
the flipped ones the claim requires for every away-side participant: the
defeated branch fires because the winner equals the participant, and it
never flips. -/
theorem c1_away_flip_counterexample :
    has_ind "IND".data = true ∧
    has_ind "FRA".data = false ∧
    renderLine3 ⟨"MS".data, "Final".data, "X".data, "FRA".data, "Y".data, "IND".data,
        "1-3".data, "11-9,8-11,9-11,7-11".data, "Y".data⟩ =
      "Y defeated X (FRA) by (1-3) (11-9,8-11,9-11,7-11)".data ∧
    flip_overall "1-3".data = "3-1".data ∧
    flip_games "11-9,8-11,9-11,7-11".data = "9-11,11-8,11-9,11-7".data ∧
    "Y defeated X (FRA) by (1-3) (11-9,8-11,9-11,7-11)".data ≠
      "Y defeated X (FRA) by (3-1) (9-11,11-8,11-9,11-7)".data := by
  refine ⟨by decide, by decide, by decide, by decide, by decide, by decide⟩

end WTT
